import Mathlib

/-!
# Verification of the translate-market project/bid/escrow/review lifecycle

Shallow embedding of the server route handlers of the translate-market
repository (Express + Prisma).  The relevant handlers live in
`src/server/routes/auth.js` (a concatenation of the auth, bid and project
route files), `src/server/routes/reviews.js` and `src/unnamed/part_002`
(the transaction and user route files).

Modelling conventions:
* The Prisma-backed database is a `Store`: lists of records plus a fresh-id
  counter (`nextId`); Prisma's generated cuid ids are modelled as `Nat`s
  drawn from that counter.
* Each route handler becomes a pure function `Store → args → Store × Except
  ApiError Unit`.  Error paths that occur before any write return the store
  unchanged; Prisma's `$transaction` in the bid-accept handler means the
  whole success branch is a single state update, while handlers that issue
  two sequential non-transactional writes (release/refund, review +
  rating recomputation) are modelled as sequential updates so that a throw
  between the writes leaves the first write committed (`ApiError.Unexpected`
  models an uncaught Prisma throw, surfaced as HTTP 500).
* Authentication (`authenticateToken`) and role middleware as well as
  express-validator input validation happen before the handler bodies and
  are outside the model; the functions model the handler bodies, so
  `callerId` is the authenticated user's id.
* JavaScript numbers (bid amounts, budgets, ratings) are modelled as exact
  rationals `ℚ`; `Math.round` becomes `jsRound`.
-/

namespace TranslateMarket

/-- Account roles (`role` column, checked as strings in the source). -/
inductive Role
  | CLIENT
  | FREELANCER
deriving DecidableEq

/-- Project status enum (`POSTED | IN_PROGRESS | COMPLETED | PAID | CANCELLED`). -/
inductive ProjectStatus
  | POSTED
  | IN_PROGRESS
  | COMPLETED
  | PAID
  | CANCELLED
deriving DecidableEq

/-- Bid status enum (`PENDING | ACCEPTED | REJECTED`). -/
inductive BidStatus
  | PENDING
  | ACCEPTED
  | REJECTED
deriving DecidableEq

/-- Escrow transaction status enum (`PENDING | RELEASED | REFUNDED`). -/
inductive TxStatus
  | PENDING
  | RELEASED
  | REFUNDED
deriving DecidableEq

/-- A user record (`User` table).  `passwordHash`, `name` and
`profilePicture` play no role in any claim and are omitted. -/
structure User where
  id : Nat
  email : String
  role : Role
  languages : List String
  rating : ℚ
deriving DecidableEq

/-- A project record (`Project` table).  `title`, `description`, the
language pair, `deadline` and `attachedFiles` play no role in any claim
and are omitted. -/
structure Project where
  id : Nat
  clientId : Nat
  status : ProjectStatus
  budget : ℚ
deriving DecidableEq

/-- A bid record (`Bid` table).  `estimatedTime` is omitted. -/
structure Bid where
  id : Nat
  projectId : Nat
  freelancerId : Nat
  bidAmount : ℚ
  status : BidStatus
deriving DecidableEq

/-- An escrow transaction record (`Transaction` table).
`stripePaymentId` is omitted. -/
structure Txn where
  id : Nat
  projectId : Nat
  clientId : Nat
  freelancerId : Nat
  amount : ℚ
  status : TxStatus
deriving DecidableEq

/-- A review record (`Review` table).  `comment` is omitted. -/
structure Review where
  id : Nat
  projectId : Nat
  reviewerId : Nat
  revieweeId : Nat
  rating : Nat
deriving DecidableEq

/-- The whole database state. -/
structure Store where
  nextId : Nat
  users : List User
  projects : List Project
  bids : List Bid
  txns : List Txn
  reviews : List Review
deriving DecidableEq

/-- The empty database. -/
def Store.empty : Store := ⟨0, [], [], [], [], []⟩

/-- Error taxonomy of the route handlers (spec §7). -/
inductive ApiError
  | Validation
  | NotFound
  | Forbidden
  | Conflict
  | Unexpected
deriving DecidableEq

/-- HTTP status code attached to each error kind (spec §7: conflicts are
encoded as 400). -/
def ApiError.httpStatus : ApiError → Nat
  | .Validation => 400
  | .NotFound => 404
  | .Forbidden => 403
  | .Conflict => 400
  | .Unexpected => 500

/-- `Math.round` of JavaScript on an exact rational: round half away from
zero is `⌊x + 1/2⌋` for the non-negative values that occur here (and JS
`Math.round` is `⌊x + 0.5⌋` for every finite argument). -/
def jsRound (x : ℚ) : ℤ := ⌊x + 1/2⌋

/-- `prisma.user.findUnique({ where: { id } })`. -/
def Store.findUser (s : Store) (uid : Nat) : Option User :=
  s.users.find? (fun u => decide (u.id = uid))

/-- `prisma.user.findUnique({ where: { email } })`. -/
def Store.findUserByEmail (s : Store) (email : String) : Option User :=
  s.users.find? (fun u => decide (u.email = email))

/-- `prisma.project.findUnique({ where: { id } })`. -/
def Store.findProject (s : Store) (pid : Nat) : Option Project :=
  s.projects.find? (fun p => decide (p.id = pid))

/-- `prisma.bid.findUnique({ where: { id } })`. -/
def Store.findBid (s : Store) (bid : Nat) : Option Bid :=
  s.bids.find? (fun b => decide (b.id = bid))

/-- `prisma.transaction.findUnique({ where: { id } })`. -/
def Store.findTxn (s : Store) (tid : Nat) : Option Txn :=
  s.txns.find? (fun t => decide (t.id = tid))

/-- `prisma.review.findUnique({ where: { id } })`. -/
def Store.findReview (s : Store) (rid : Nat) : Option Review :=
  s.reviews.find? (fun r => decide (r.id = rid))

/-- Status of the project with the given id, if it exists. -/
def Store.projStatus (s : Store) (pid : Nat) : Option ProjectStatus :=
  (s.findProject pid).map (·.status)

/-- Status of the transaction with the given id, if it exists. -/
def Store.txnStatus (s : Store) (tid : Nat) : Option TxStatus :=
  (s.findTxn tid).map (·.status)

/-- `POST /auth/register` (src/server/routes/auth.js, lines 11–80).
Duplicate email is a 400 (`Conflict` here).  The created row stores the
supplied languages only for role `FREELANCER`
(`languages: role === 'FREELANCER' ? languages : []`).  The `rating`
column's initial value is the database schema default, modelled as `0`
(the schema file is not part of the sources; the spec describes `rating`
as derived from reviews, and every claim-relevant read happens after a
recomputation). -/
def registerUser (s : Store) (email : String) (role : Role)
    (languages : List String) : Store × Except ApiError Unit :=
  if (s.findUserByEmail email).isSome then
    (s, .error .Conflict)
  else
    ({ s with
        nextId := s.nextId + 1
        users := s.users ++
          [{ id := s.nextId, email := email, role := role
             languages := if role = .FREELANCER then languages else []
             rating := 0 }] },
      .ok ())

/-- `POST /projects` (src/server/routes/auth.js, lines 490–533).
Creates a project for the authenticated client.  The `status` column's
initial value is the database schema default; the schema file is not part
of the sources.  Modelled from the spec: `create(...) → Project with
status=POSTED`. -/
def createProject (s : Store) (callerId : Nat) (budget : ℚ) :
    Store × Except ApiError Unit :=
  ({ s with
      nextId := s.nextId + 1
      projects := s.projects ++
        [{ id := s.nextId, clientId := callerId, status := .POSTED
           budget := budget }] },
    .ok ())

/-- `POST /bids` (src/server/routes/auth.js, lines 185–252).
Checks, in source order: project exists (404), project status is
`POSTED` (400), caller is not the project owner (400), caller has no
prior bid on the project (400); then creates the bid.  The created bid's
`status` column is the database schema default; the schema file is not
part of the sources.  Modelled from the spec: `Returns Bid with
status=PENDING`. -/
def submitBid (s : Store) (callerId pid : Nat) (amount : ℚ) :
    Store × Except ApiError Unit :=
  match s.findProject pid with
  | none => (s, .error .NotFound)
  | some p =>
    if p.status ≠ .POSTED then
      (s, .error .Conflict)
    else if p.clientId = callerId then
      (s, .error .Conflict)
    else if (s.bids.find? (fun b =>
        decide (b.projectId = pid ∧ b.freelancerId = callerId))).isSome then
      (s, .error .Conflict)
    else
      ({ s with
          nextId := s.nextId + 1
          bids := s.bids ++
            [{ id := s.nextId, projectId := pid, freelancerId := callerId
               bidAmount := amount, status := .PENDING }] },
        .ok ())

/-! ### Named single-record writes

The Prisma `update`/`updateMany` calls of the handlers, written as
explicit record rewrites so the proofs can refer to them. -/

/-- The per-bid write of the accept transaction: the target bid becomes
`ACCEPTED` (`tx.bid.update`), every other `PENDING` bid of the same
project becomes `REJECTED` (`tx.bid.updateMany`). -/
def acceptBidWrite (bidId pid : Nat) (x : Bid) : Bid :=
  if x.id = bidId then { x with status := .ACCEPTED }
  else if x.projectId = pid ∧ x.status = .PENDING then
    { x with status := .REJECTED }
  else x

/-- `prisma.project.update` of the status column. -/
def setProjectStatus (pid : Nat) (st : ProjectStatus) (q : Project) :
    Project :=
  if q.id = pid then { q with status := st } else q

/-- `prisma.bid.update` of the status column. -/
def setBidStatus (bidId : Nat) (st : BidStatus) (x : Bid) : Bid :=
  if x.id = bidId then { x with status := st } else x

/-- `prisma.transaction.update` of the status column. -/
def setTxnStatus (tid : Nat) (st : TxStatus) (t : Txn) : Txn :=
  if t.id = tid then { t with status := st } else t

/-- The field updates of `PUT /projects/:id` (absent fields unchanged). -/
def editProject (pid : Nat) (budget? : Option ℚ)
    (status? : Option ProjectStatus) (q : Project) : Project :=
  if q.id = pid then
    { q with budget := budget?.getD q.budget
             status := status?.getD q.status }
  else q

/-- `prisma.user.update` of the rating column. -/
def setUserRating (uid : Nat) (v : ℚ) (u : User) : User :=
  if u.id = uid then { u with rating := v } else u

/-- The update branch of the confirm-payment upsert. -/
def setTxnPendingOn (pid callerId : Nat) (t : Txn) : Txn :=
  if t.projectId = pid ∧ t.clientId = callerId then
    { t with status := .PENDING }
  else t

/-- `prisma.review.update` of the rating column. -/
def setReviewRating (rid newRating : Nat) (x : Review) : Review :=
  if x.id = rid then { x with rating := newRating } else x

/-- `PUT /bids/:id/accept` (src/server/routes/auth.js, lines 255–325).
Checks, in source order: bid exists (404), caller owns the bid's project
(403), project status is `POSTED` (400).  On success a single
`prisma.$transaction` performs the four writes: target bid `ACCEPTED`,
project `IN_PROGRESS`, every other `PENDING` bid of the project
`REJECTED`, and one new escrow transaction for the bid amount.  The
created transaction's `status` column is the database schema default; the
schema file is not part of the sources.  Modelled from the spec: `create
an EscrowTransaction record in PENDING status for the accepted amount`.
A bid whose project row is missing would make the handler throw (500),
modelled as `Unexpected`. -/
def acceptBid (s : Store) (callerId bidId : Nat) :
    Store × Except ApiError Unit :=
  match s.findBid bidId with
  | none => (s, .error .NotFound)
  | some b =>
    match s.findProject b.projectId with
    | none => (s, .error .Unexpected)
    | some p =>
      if p.clientId ≠ callerId then
        (s, .error .Forbidden)
      else if p.status ≠ .POSTED then
        (s, .error .Conflict)
      else
        ({ s with
            nextId := s.nextId + 1
            bids := s.bids.map (acceptBidWrite bidId b.projectId)
            projects := s.projects.map
              (setProjectStatus b.projectId .IN_PROGRESS)
            txns := s.txns ++
              [{ id := s.nextId, projectId := b.projectId
                 clientId := p.clientId, freelancerId := b.freelancerId
                 amount := b.bidAmount, status := .PENDING }] },
          .ok ())

/-- `PUT /bids/:id/reject` (src/server/routes/auth.js, lines 328–360).
Checks: bid exists (404), caller owns the bid's project (403), bid status
is `PENDING` (400); then sets the bid to `REJECTED`. -/
def rejectBid (s : Store) (callerId bidId : Nat) :
    Store × Except ApiError Unit :=
  match s.findBid bidId with
  | none => (s, .error .NotFound)
  | some b =>
    match s.findProject b.projectId with
    | none => (s, .error .Unexpected)
    | some p =>
      if p.clientId ≠ callerId then
        (s, .error .Forbidden)
      else if b.status ≠ .PENDING then
        (s, .error .Conflict)
      else
        ({ s with
            bids := s.bids.map (setBidStatus bidId .REJECTED) },
          .ok ())

/-- `PUT /projects/:id` (src/server/routes/auth.js, lines 536–588).
Checks: project exists (404), caller is the owner (403); then applies the
supplied fields.  The `status` field may be set to any of the five enum
values — the handler performs no transition validation.  `title`,
`description` and `deadline` updates are omitted as irrelevant to every
claim; `budget` is kept as a representative non-status field. -/
def updateProject (s : Store) (callerId pid : Nat) (budget? : Option ℚ)
    (status? : Option ProjectStatus) : Store × Except ApiError Unit :=
  match s.findProject pid with
  | none => (s, .error .NotFound)
  | some p =>
    if p.clientId ≠ callerId then
      (s, .error .Forbidden)
    else
      ({ s with
          projects := s.projects.map (editProject pid budget? status?) },
        .ok ())

/-- `POST /transactions/confirm-payment` (src/unnamed/part_002, lines
98–148).  The Stripe payment-intent retrieval is an external dependency;
its outcome is modelled by the oracle argument `succeeded` and the
confirmed `amount` (in the source, `paymentIntent.amount / 100`).  When
the hold did not succeed the handler returns 400; otherwise it upserts
the transaction on the `(projectId, clientId)` unique key, setting
`status` to `PENDING` in both branches. -/
def confirmPayment (s : Store) (callerId pid freelancerId : Nat)
    (amount : ℚ) (succeeded : Bool) : Store × Except ApiError Unit :=
  if ¬succeeded then
    (s, .error .Conflict)
  else if (s.txns.find? (fun t =>
      decide (t.projectId = pid ∧ t.clientId = callerId))).isSome then
    ({ s with
        txns := s.txns.map (setTxnPendingOn pid callerId) },
      .ok ())
  else
    ({ s with
        nextId := s.nextId + 1
        txns := s.txns ++
          [{ id := s.nextId, projectId := pid, clientId := callerId
             freelancerId := freelancerId, amount := amount
             status := .PENDING }] },
      .ok ())

/-- `POST /transactions/:id/release` (src/unnamed/part_002, lines
151–194).  Checks: transaction exists (404), caller is the paying client
(403), status is `PENDING` (400); then two sequential (non-transactional)
writes set the transaction to `RELEASED` and the project to `PAID`.  A
missing project row would make the second write throw (500) after the
first one committed, modelled by returning the half-updated store with
`Unexpected`. -/
def releaseTxn (s : Store) (callerId tid : Nat) :
    Store × Except ApiError Unit :=
  match s.findTxn tid with
  | none => (s, .error .NotFound)
  | some t =>
    if t.clientId ≠ callerId then
      (s, .error .Forbidden)
    else if t.status ≠ .PENDING then
      (s, .error .Conflict)
    else
      let s1 : Store := { s with
        txns := s.txns.map (setTxnStatus tid .RELEASED) }
      if (s1.findProject t.projectId).isSome then
        ({ s1 with
            projects := s1.projects.map
              (setProjectStatus t.projectId .PAID) },
          .ok ())
      else
        (s1, .error .Unexpected)

/-- `POST /transactions/:id/refund` (src/unnamed/part_002, lines
197–237).  Symmetric to release: checks transaction exists (404), caller
is the paying client (403), status is `PENDING` (400); then sets the
transaction to `REFUNDED` and the project to `CANCELLED` in two
sequential writes. -/
def refundTxn (s : Store) (callerId tid : Nat) :
    Store × Except ApiError Unit :=
  match s.findTxn tid with
  | none => (s, .error .NotFound)
  | some t =>
    if t.clientId ≠ callerId then
      (s, .error .Forbidden)
    else if t.status ≠ .PENDING then
      (s, .error .Conflict)
    else
      let s1 : Store := { s with
        txns := s.txns.map (setTxnStatus tid .REFUNDED) }
      if (s1.findProject t.projectId).isSome then
        ({ s1 with
            projects := s1.projects.map
              (setProjectStatus t.projectId .CANCELLED) },
          .ok ())
      else
        (s1, .error .Unexpected)

/-- Rating recomputation shared by review creation and update
(src/server/routes/reviews.js, lines 117–127 and 184–196):
`findMany` all reviews of the reviewee, take the arithmetic mean of their
ratings, store `Math.round(average * 10) / 10` on the user row.  A
missing user row would make `prisma.user.update` throw (500) after the
review write already committed. -/
def recomputeRating (s : Store) (revieweeId : Nat) :
    Store × Except ApiError Unit :=
  let rs := s.reviews.filter (fun r => decide (r.revieweeId = revieweeId))
  let average : ℚ := ((rs.map (fun r => (r.rating : ℚ))).sum) / rs.length
  let newRating : ℚ := (jsRound (average * 10) : ℚ) / 10
  if (s.findUser revieweeId).isSome then
    ({ s with
        users := s.users.map (setUserRating revieweeId newRating) },
      .ok ())
  else
    (s, .error .Unexpected)

/-- `POST /reviews` (src/server/routes/reviews.js, lines 41–137).
Checks, in source order: project exists (404), project status is `PAID`
or `COMPLETED` (400), caller is the project's client or a freelancer with
an `ACCEPTED` bid on the project (403), no review for the same
`(project, reviewer, reviewee)` triple exists (400); then inserts the
review and recomputes the reviewee's aggregate rating. -/
def createReview (s : Store) (callerId pid revieweeId rating : Nat) :
    Store × Except ApiError Unit :=
  match s.findProject pid with
  | none => (s, .error .NotFound)
  | some p =>
    if p.status ≠ .PAID ∧ p.status ≠ .COMPLETED then
      (s, .error .Conflict)
    else
      if ¬(p.clientId = callerId ∨
          (s.bids.any (fun b =>
            decide (b.projectId = pid ∧ b.status = .ACCEPTED ∧
              b.freelancerId = callerId))) = true) then
        (s, .error .Forbidden)
      else if (s.reviews.find? (fun r =>
          decide (r.projectId = pid ∧ r.reviewerId = callerId ∧
            r.revieweeId = revieweeId))).isSome then
        (s, .error .Conflict)
      else
        let s1 : Store := { s with
          nextId := s.nextId + 1
          reviews := s.reviews ++
            [{ id := s.nextId, projectId := pid, reviewerId := callerId
               revieweeId := revieweeId, rating := rating }] }
        recomputeRating s1 revieweeId

/-- `PUT /reviews/:id` (src/server/routes/reviews.js, lines 140–206).
Checks: review exists (404), caller is the reviewer (403); updates the
rating when one is supplied and then recomputes the reviewee's aggregate
rating (the recomputation runs only `if (rating)`).  Comment-only updates
are modelled as the `none` branch. -/
def updateReview (s : Store) (callerId reviewId : Nat)
    (rating? : Option Nat) : Store × Except ApiError Unit :=
  match s.findReview reviewId with
  | none => (s, .error .NotFound)
  | some r =>
    if r.reviewerId ≠ callerId then
      (s, .error .Forbidden)
    else
      match rating? with
      | none => (s, .ok ())
      | some newRating =>
        let s1 : Store := { s with
          reviews := s.reviews.map (setReviewRating reviewId newRating) }
        recomputeRating s1 r.revieweeId

/-! ## Operations and reachability

`Op` is the syntax of the modelled API calls; a state is *reachable* when
some sequence of operations produces it from the empty database. -/

/-- One API call with its arguments. -/
inductive Op
  | register (email : String) (role : Role) (languages : List String)
  | createProject (callerId : Nat) (budget : ℚ)
  | submitBid (callerId pid : Nat) (amount : ℚ)
  | acceptBid (callerId bidId : Nat)
  | rejectBid (callerId bidId : Nat)
  | updateProject (callerId pid : Nat) (budget? : Option ℚ)
      (status? : Option ProjectStatus)
  | confirmPayment (callerId pid freelancerId : Nat) (amount : ℚ)
      (succeeded : Bool)
  | releaseTxn (callerId tid : Nat)
  | refundTxn (callerId tid : Nat)
  | createReview (callerId pid revieweeId rating : Nat)
  | updateReview (callerId reviewId : Nat) (rating? : Option Nat)

/-- The state after running one operation (the HTTP response is dropped;
error paths already return the unchanged — or, for the non-transactional
handlers, partially written — store). -/
def Op.apply (op : Op) (s : Store) : Store :=
  match op with
  | .register email role languages => (registerUser s email role languages).1
  | .createProject callerId budget => (TranslateMarket.createProject s callerId budget).1
  | .submitBid callerId pid amount => (TranslateMarket.submitBid s callerId pid amount).1
  | .acceptBid callerId bidId => (TranslateMarket.acceptBid s callerId bidId).1
  | .rejectBid callerId bidId => (TranslateMarket.rejectBid s callerId bidId).1
  | .updateProject callerId pid budget? status? =>
      (TranslateMarket.updateProject s callerId pid budget? status?).1
  | .confirmPayment callerId pid freelancerId amount succeeded =>
      (TranslateMarket.confirmPayment s callerId pid freelancerId amount succeeded).1
  | .releaseTxn callerId tid => (TranslateMarket.releaseTxn s callerId tid).1
  | .refundTxn callerId tid => (TranslateMarket.refundTxn s callerId tid).1
  | .createReview callerId pid revieweeId rating =>
      (TranslateMarket.createReview s callerId pid revieweeId rating).1
  | .updateReview callerId reviewId rating? =>
      (TranslateMarket.updateReview s callerId reviewId rating?).1

/-- Run a sequence of operations from the empty database. -/
def runOps (ops : List Op) : Store :=
  ops.foldl (fun s op => op.apply s) Store.empty

/-- A state is reachable when some operation sequence produces it. -/
def Reachable (s : Store) : Prop :=
  ∃ ops : List Op, runOps ops = s

/-! ## Generic list helpers -/

/-- `find?` commutes with a map that does not change the tested predicate. -/
theorem find?_map_congr {α : Type} (l : List α) (f : α → α) (q : α → Bool)
    (hf : ∀ x, q (f x) = q x) :
    (l.map f).find? q = (l.find? q).map f := by
  induction l with
  | nil => rfl
  | cons a t ih =>
    simp only [List.map_cons]
    by_cases hq : q a
    · rw [List.find?_cons_of_pos _ (by rw [hf]; exact hq),
        List.find?_cons_of_pos _ hq]
      rfl
    · rw [List.find?_cons_of_neg _ (by rw [hf]; simpa using hq),
        List.find?_cons_of_neg _ (by simpa using hq), ih]

/-! ## C10: registration stores languages only for freelancers -/

/-- **C10** — For every successful registration (`POST /auth/register`),
the created account's languages list is empty when the requested role is
`CLIENT`, regardless of the languages supplied in the request, and is
exactly the supplied list when the role is `FREELANCER`. -/
theorem registerUser_languages (s : Store) (email : String) (role : Role)
    (langs : List String)
    (h : (registerUser s email role langs).2 = .ok ()) :
    ∃ u : User,
      (registerUser s email role langs).1.users = s.users ++ [u] ∧
      (role = .CLIENT → u.languages = []) ∧
      (role = .FREELANCER → u.languages = langs) := by
  by_cases hc : (s.findUserByEmail email).isSome
  · simp [registerUser, hc] at h
  · refine ⟨⟨s.nextId, email, role,
        if role = .FREELANCER then langs else [], 0⟩,
        by simp [registerUser, hc], ?_, ?_⟩ <;>
      rintro rfl <;> simp

/-- Witness for C10: registering a client with a supplied language list
yields an account with no languages. -/
theorem registerUser_languages_witness :
    ∃ u : User,
      (registerUser Store.empty "a@b.c" Role.CLIENT ["Spanish"]).1.users =
        Store.empty.users ++ [u] ∧
      (Role.CLIENT = Role.CLIENT → u.languages = []) ∧
      (Role.CLIENT = Role.FREELANCER → u.languages = ["Spanish"]) :=
  registerUser_languages Store.empty "a@b.c" Role.CLIENT ["Spanish"] rfl

/-! ## The spec's running scenario

Client (id 0) posts a project (id 3, budget 500); freelancer A (id 1)
bids 450 (bid id 4) and freelancer B (id 2) bids 480 (bid id 5). -/

/-- Operation sequence building the spec's scenario state. -/
def demoOps : List Op :=
  [.register "client@x" .CLIENT [],
   .register "fa@x" .FREELANCER ["Spanish"],
   .register "fb@x" .FREELANCER ["French"],
   .createProject 0 500,
   .submitBid 1 3 450,
   .submitBid 2 3 480]

/-- The spec's scenario state. -/
def demoStore : Store := runOps demoOps

/-! ## C4: bid-accept error paths -/

/-- **C4** — `PUT /bids/:id/accept` fails with Forbidden (HTTP 403) when
the caller does not own the bid's project, and with Conflict (HTTP 400)
when the project's status is not `POSTED`; in both cases the store —
bids, project and transactions included — is returned unchanged. -/
theorem acceptBid_errors (s : Store) (callerId bidId : Nat) (b : Bid)
    (p : Project)
    (hb : s.findBid bidId = some b)
    (hp : s.findProject b.projectId = some p) :
    (p.clientId ≠ callerId →
      acceptBid s callerId bidId = (s, .error .Forbidden)) ∧
    (p.clientId = callerId → p.status ≠ .POSTED →
      acceptBid s callerId bidId = (s, .error .Conflict)) ∧
    ApiError.Forbidden.httpStatus = 403 ∧
    ApiError.Conflict.httpStatus = 400 := by
  refine ⟨fun h1 => ?_, fun h1 h2 => ?_, rfl, rfl⟩
  · simp [acceptBid, hb, hp, h1]
  · simp [acceptBid, hb, hp, h1, h2]

/-- Witness for C4: in the scenario state, freelancer A (not the owner)
cannot accept their own bid, and after the project stops being `POSTED`
the owner cannot accept either. -/
theorem acceptBid_errors_witness :
    ((Project.mk 3 0 .POSTED 500).clientId ≠ 1 →
      acceptBid demoStore 1 4 = (demoStore, .error .Forbidden)) ∧
    ((Project.mk 3 0 .POSTED 500).clientId = 1 →
      (Project.mk 3 0 .POSTED 500).status ≠ .POSTED →
      acceptBid demoStore 1 4 = (demoStore, .error .Conflict)) ∧
    ApiError.Forbidden.httpStatus = 403 ∧
    ApiError.Conflict.httpStatus = 400 :=
  acceptBid_errors demoStore 1 4 ⟨4, 3, 1, 450, .PENDING⟩
    ⟨3, 0, .POSTED, 500⟩ (by decide) (by decide)

/-! ## C1: bid-accept success is one atomic four-fold write -/

/-- **C1** — A successful `PUT /bids/:id/accept` performs its four writes
as one state update: the target bid becomes `ACCEPTED`, the project
becomes `IN_PROGRESS`, every other bid on the project that was `PENDING`
becomes `REJECTED`, and exactly one new escrow transaction is appended,
in `PENDING` status, with the accepted bid's amount.  On any error the
store is returned unchanged, so either all four writes take effect or
none does. -/
theorem acceptBid_success (s : Store) (callerId bidId : Nat) (b : Bid)
    (p : Project)
    (hb : s.findBid bidId = some b)
    (hp : s.findProject b.projectId = some p)
    (hown : p.clientId = callerId)
    (hst : p.status = .POSTED) :
    (acceptBid s callerId bidId).2 = .ok () ∧
    (acceptBid s callerId bidId).1.findBid bidId =
      some { b with status := .ACCEPTED } ∧
    (acceptBid s callerId bidId).1.projStatus b.projectId =
      some .IN_PROGRESS ∧
    (∀ x ∈ s.bids, x.id ≠ bidId → x.projectId = b.projectId →
      x.status = .PENDING →
      { x with status := .REJECTED } ∈ (acceptBid s callerId bidId).1.bids) ∧
    (acceptBid s callerId bidId).1.txns =
      s.txns ++ [⟨s.nextId, b.projectId, p.clientId, b.freelancerId,
        b.bidAmount, .PENDING⟩] ∧
    (∀ (s' : Store) (c i : Nat) (e : ApiError),
      (acceptBid s' c i).2 = .error e → (acceptBid s' c i).1 = s') := by
  have hbid : b.id = bidId := by
    have := List.find?_some hb
    exact of_decide_eq_true this
  have hpid : p.id = b.projectId := by
    have := List.find?_some hp
    exact of_decide_eq_true this
  have hmain : acceptBid s callerId bidId =
      ({ s with
          nextId := s.nextId + 1
          bids := s.bids.map (acceptBidWrite bidId b.projectId)
          projects := s.projects.map
            (setProjectStatus b.projectId .IN_PROGRESS)
          txns := s.txns ++
            [⟨s.nextId, b.projectId, p.clientId, b.freelancerId,
              b.bidAmount, .PENDING⟩] },
        .ok ()) := by
    simp [acceptBid, hb, hp, hown, hst]
  refine ⟨by rw [hmain], ?_, ?_, ?_, by rw [hmain], ?_⟩
  · rw [hmain]
    show (s.bids.map _).find? _ = _
    rw [find?_map_congr _ _ _ (fun x => by
      by_cases h1 : x.id = bidId <;>
        by_cases h2 : x.projectId = b.projectId ∧ x.status = .PENDING <;>
        simp [acceptBidWrite, h1, h2])]
    rw [show s.bids.find? (fun x => decide (x.id = bidId)) = some b from hb]
    simp [acceptBidWrite, hbid]
  · rw [hmain]
    show ((s.projects.map _).find? _).map _ = _
    rw [find?_map_congr _ _ _ (fun q => by
      by_cases h1 : q.id = b.projectId <;> simp [setProjectStatus, h1])]
    rw [show s.projects.find? (fun q => decide (q.id = b.projectId)) =
      some p from hp]
    simp [setProjectStatus, hpid]
  · intro x hx hne hproj hpend
    rw [hmain]
    show _ ∈ s.bids.map _
    have hwx : { x with status := BidStatus.REJECTED } =
        acceptBidWrite bidId b.projectId x := by
      simp [acceptBidWrite, hne, hproj, hpend]
    rw [hwx]
    exact List.mem_map_of_mem _ hx
  · intro s' c i e he
    unfold acceptBid at he ⊢
    cases hfb : s'.findBid i with
    | none => simp [hfb] at he ⊢
    | some b' =>
      cases hfp : s'.findProject b'.projectId with
      | none => simp [hfb, hfp] at he ⊢
      | some p' =>
        by_cases h1 : p'.clientId ≠ c
        · simp [hfb, hfp, h1]
        · by_cases h2 : p'.status ≠ .POSTED
          · simp [hfb, hfp, h1, h2]
          · simp [hfb, hfp, h1, h2] at he

/-- Witness for C1: accepting freelancer A's 450 bid in the scenario
state succeeds and performs all four writes. -/
theorem acceptBid_success_witness :
    (acceptBid demoStore 0 4).2 = .ok () ∧
    (acceptBid demoStore 0 4).1.findBid 4 =
      some { (Bid.mk 4 3 1 450 .PENDING) with status := .ACCEPTED } ∧
    (acceptBid demoStore 0 4).1.projStatus
      (Bid.mk 4 3 1 450 .PENDING).projectId = some .IN_PROGRESS ∧
    (∀ x ∈ demoStore.bids, x.id ≠ 4 →
      x.projectId = (Bid.mk 4 3 1 450 .PENDING).projectId →
      x.status = .PENDING →
      { x with status := .REJECTED } ∈ (acceptBid demoStore 0 4).1.bids) ∧
    (acceptBid demoStore 0 4).1.txns =
      demoStore.txns ++ [⟨demoStore.nextId, 3, 0, 1, 450, .PENDING⟩] ∧
    (∀ (s' : Store) (c i : Nat) (e : ApiError),
      (acceptBid s' c i).2 = .error e → (acceptBid s' c i).1 = s') :=
  acceptBid_success demoStore 0 4 ⟨4, 3, 1, 450, .PENDING⟩
    ⟨3, 0, .POSTED, 500⟩ (by decide) (by decide) (by decide) (by decide)

/-! ## C3: bid submission -/

/-- **C3** — `POST /bids` fails with Conflict (HTTP 400) when the
project's status is not `POSTED`, or when the caller owns the project,
or when the caller already has a bid on the project (each failure leaves
the store unchanged); when none of these hold it succeeds and appends a
new bid whose status is `PENDING`. -/
theorem submitBid_spec (s : Store) (callerId pid : Nat) (amount : ℚ)
    (p : Project) (hp : s.findProject pid = some p) :
    (p.status ≠ .POSTED →
      submitBid s callerId pid amount = (s, .error .Conflict)) ∧
    (p.clientId = callerId →
      submitBid s callerId pid amount = (s, .error .Conflict)) ∧
    ((s.bids.find? (fun b =>
        decide (b.projectId = pid ∧ b.freelancerId = callerId))).isSome →
      submitBid s callerId pid amount = (s, .error .Conflict)) ∧
    (p.status = .POSTED → p.clientId ≠ callerId →
      (s.bids.find? (fun b =>
        decide (b.projectId = pid ∧ b.freelancerId = callerId))).isSome =
          false →
      (submitBid s callerId pid amount).2 = .ok () ∧
      (submitBid s callerId pid amount).1.bids =
        s.bids ++ [⟨s.nextId, pid, callerId, amount, .PENDING⟩]) ∧
    ApiError.Conflict.httpStatus = 400 := by
  refine ⟨fun h1 => ?_, fun h1 => ?_, fun h1 => ?_,
    fun h1 h2 h3 => ?_, rfl⟩
  · simp [submitBid, hp, h1]
  · by_cases h0 : p.status = ProjectStatus.POSTED <;>
      simp [submitBid, hp, h0, h1]
  · by_cases h0 : p.status = ProjectStatus.POSTED <;>
      by_cases hw : p.clientId = callerId <;>
      simp [submitBid, hp, h0, hw, h1] <;> simpa using h1
  · have h3' : ¬ ∃ x ∈ s.bids, x.projectId = pid ∧ x.freelancerId = callerId := by
      simpa using h3
    refine ⟨?_, ?_⟩ <;> simp [submitBid, hp, h1, h2, h3']

/-- Witness for C3: in the scenario state freelancer B already has a bid
on project 3, so a second one is rejected; a third freelancer's bid
succeeds with status `PENDING`. -/
theorem submitBid_spec_witness :
    ((Project.mk 3 0 .POSTED 500).status ≠ .POSTED →
      submitBid demoStore 2 3 470 = (demoStore, .error .Conflict)) ∧
    ((Project.mk 3 0 .POSTED 500).clientId = 2 →
      submitBid demoStore 2 3 470 = (demoStore, .error .Conflict)) ∧
    ((demoStore.bids.find? (fun b =>
        decide (b.projectId = 3 ∧ b.freelancerId = 2))).isSome →
      submitBid demoStore 2 3 470 = (demoStore, .error .Conflict)) ∧
    ((Project.mk 3 0 .POSTED 500).status = .POSTED →
      (Project.mk 3 0 .POSTED 500).clientId ≠ 2 →
      (demoStore.bids.find? (fun b =>
        decide (b.projectId = 3 ∧ b.freelancerId = 2))).isSome = false →
      (submitBid demoStore 2 3 470).2 = .ok () ∧
      (submitBid demoStore 2 3 470).1.bids =
        demoStore.bids ++ [⟨demoStore.nextId, 3, 2, 470, .PENDING⟩]) ∧
    ApiError.Conflict.httpStatus = 400 :=
  submitBid_spec demoStore 2 3 470 ⟨3, 0, .POSTED, 500⟩ (by decide)

/-! ## C5 and C6: escrow release and refund -/

/-- Scenario state after the owner accepts freelancer A's bid: the escrow
transaction has id 6 and is `PENDING`, the project is `IN_PROGRESS`. -/
def demoAccepted : Store := (acceptBid demoStore 0 4).1

/-- Scenario state after the payer additionally releases transaction 6:
the transaction is `RELEASED` and the project `PAID`. -/
def demoReleased : Store := (releaseTxn demoAccepted 0 6).1

/-- **C5** — When the paying client releases a `PENDING` escrow
transaction, the call succeeds and afterwards the transaction is
`RELEASED` and its project is `PAID`; symmetrically, a refund makes the
transaction `REFUNDED` and the project `CANCELLED`. -/
theorem release_refund_success (s : Store) (callerId tid : Nat) (t : Txn)
    (p : Project)
    (ht : s.findTxn tid = some t)
    (hc : t.clientId = callerId)
    (hpend : t.status = .PENDING)
    (hproj : s.findProject t.projectId = some p) :
    ((releaseTxn s callerId tid).2 = .ok () ∧
      (releaseTxn s callerId tid).1.txnStatus tid = some .RELEASED ∧
      (releaseTxn s callerId tid).1.projStatus t.projectId =
        some .PAID) ∧
    ((refundTxn s callerId tid).2 = .ok () ∧
      (refundTxn s callerId tid).1.txnStatus tid = some .REFUNDED ∧
      (refundTxn s callerId tid).1.projStatus t.projectId =
        some .CANCELLED) := by
  have htid : t.id = tid := by
    have h := ht
    unfold Store.findTxn at h
    have h2 := List.find?_some h
    simpa using h2
  have hpid : p.id = t.projectId := by
    have h := hproj
    unfold Store.findProject at h
    have h2 := List.find?_some h
    simpa using h2
  have hfind : ∀ st : TxStatus,
      (s.txns.map (setTxnStatus tid st)).find?
          (fun x => decide (x.id = tid)) =
      some { t with status := st } := by
    intro st
    rw [find?_map_congr _ _ _ (fun x => by
      by_cases h1 : x.id = tid <;> simp [setTxnStatus, h1])]
    rw [show s.txns.find? (fun x => decide (x.id = tid)) = some t from ht]
    simp [setTxnStatus, htid]
  have hpfind : ∀ st : ProjectStatus,
      (s.projects.map (setProjectStatus t.projectId st)).find?
          (fun q => decide (q.id = t.projectId)) =
      some { p with status := st } := by
    intro st
    rw [find?_map_congr _ _ _ (fun q => by
      by_cases h1 : q.id = t.projectId <;> simp [setProjectStatus, h1])]
    rw [show s.projects.find? (fun q => decide (q.id = t.projectId)) =
      some p from hproj]
    simp [setProjectStatus, hpid]
  have hsome : (s.projects.find? (fun q =>
      decide (q.id = t.projectId))).isSome = true := by
    have h := hproj
    unfold Store.findProject at h
    rw [h]
    rfl
  have hrel : releaseTxn s callerId tid =
      ({ s with
          projects := s.projects.map (setProjectStatus t.projectId .PAID)
          txns := s.txns.map (setTxnStatus tid .RELEASED) },
        .ok ()) := by
    simp [releaseTxn, ht, hc, hpend, Store.findProject, hsome]
  have href : refundTxn s callerId tid =
      ({ s with
          projects := s.projects.map
            (setProjectStatus t.projectId .CANCELLED)
          txns := s.txns.map (setTxnStatus tid .REFUNDED) },
        .ok ()) := by
    simp [refundTxn, ht, hc, hpend, Store.findProject, hsome]
  refine ⟨⟨by rw [hrel], ?_, ?_⟩, by rw [href], ?_, ?_⟩
  · rw [hrel]
    simp [Store.txnStatus, Store.findTxn, hfind]
  · rw [hrel]
    simp [Store.projStatus, Store.findProject, hpfind]
  · rw [href]
    simp [Store.txnStatus, Store.findTxn, hfind]
  · rw [href]
    simp [Store.projStatus, Store.findProject, hpfind]

/-- Witness for C5: releasing (and, alternatively, refunding) the
scenario's escrow transaction from the post-accept state. -/
theorem release_refund_success_witness :
    ((releaseTxn demoAccepted 0 6).2 = .ok () ∧
      (releaseTxn demoAccepted 0 6).1.txnStatus 6 = some .RELEASED ∧
      (releaseTxn demoAccepted 0 6).1.projStatus
        (Txn.mk 6 3 0 1 450 .PENDING).projectId = some .PAID) ∧
    ((refundTxn demoAccepted 0 6).2 = .ok () ∧
      (refundTxn demoAccepted 0 6).1.txnStatus 6 = some .REFUNDED ∧
      (refundTxn demoAccepted 0 6).1.projStatus
        (Txn.mk 6 3 0 1 450 .PENDING).projectId = some .CANCELLED) :=
  release_refund_success demoAccepted 0 6 ⟨6, 3, 0, 1, 450, .PENDING⟩
    ⟨3, 0, .IN_PROGRESS, 500⟩ (by decide) (by decide) (by decide) (by decide)

/-- **C6** — Release succeeds only from `PENDING`: a successful release
implies the transaction was `PENDING`, and when the payer retries a
release or a refund on a transaction that is already `RELEASED` or
`REFUNDED`, the call fails with Conflict (HTTP 400) and returns the
store — transaction and project included — unchanged. -/
theorem release_only_once (s : Store) (callerId tid : Nat) (t : Txn)
    (ht : s.findTxn tid = some t)
    (hc : t.clientId = callerId) :
    ((releaseTxn s callerId tid).2 = .ok () → t.status = .PENDING) ∧
    (t.status = .RELEASED ∨ t.status = .REFUNDED →
      releaseTxn s callerId tid = (s, .error .Conflict) ∧
      refundTxn s callerId tid = (s, .error .Conflict)) ∧
    ApiError.Conflict.httpStatus = 400 := by
  refine ⟨fun hok => ?_, fun hst => ⟨?_, ?_⟩, rfl⟩
  · by_cases hpend : t.status = TxStatus.PENDING
    · exact hpend
    · simp [releaseTxn, ht, hc, hpend] at hok
  · have : t.status ≠ .PENDING := by rcases hst with h | h <;> simp [h]
    simp [releaseTxn, ht, hc, this]
  · have : t.status ≠ .PENDING := by rcases hst with h | h <;> simp [h]
    simp [refundTxn, ht, hc, this]

/-- Witness for C6: after the scenario release, transaction 6 is
`RELEASED`, and both a second release and a refund by the payer fail
with Conflict leaving the store unchanged. -/
theorem release_only_once_witness :
    ((releaseTxn demoReleased 0 6).2 = .ok () →
      (Txn.mk 6 3 0 1 450 .RELEASED).status = .PENDING) ∧
    ((Txn.mk 6 3 0 1 450 .RELEASED).status = .RELEASED ∨
      (Txn.mk 6 3 0 1 450 .RELEASED).status = .REFUNDED →
      releaseTxn demoReleased 0 6 = (demoReleased, .error .Conflict) ∧
      refundTxn demoReleased 0 6 = (demoReleased, .error .Conflict)) ∧
    ApiError.Conflict.httpStatus = 400 :=
  release_only_once demoReleased 0 6 ⟨6, 3, 0, 1, 450, .RELEASED⟩
    (by decide) (by decide)

/-! ## C7: aggregate rating -/

/-- The spec's aggregate rating: arithmetic mean of all ratings the user
has received, rounded to one decimal place (stated with Mathlib's
`round`, which rounds half up exactly as JavaScript's `Math.round` does
on the non-negative values occurring here). -/
def specAggregate (s : Store) (uid : Nat) : ℚ :=
  let rs := (s.reviews.filter (fun r => decide (r.revieweeId = uid))).map
    (fun r => (r.rating : ℚ))
  (round ((rs.sum / rs.length) * 10) : ℚ) / 10

/-- The aggregate only looks at the review table. -/
theorem specAggregate_congr (s s' : Store) (uid : Nat)
    (h : s.reviews = s'.reviews) :
    specAggregate s uid = specAggregate s' uid := by
  simp [specAggregate, h]

/-- What `recomputeRating` leaves behind: the review table is untouched,
and on success the target user's stored rating is the spec aggregate. -/
theorem recomputeRating_spec (s : Store) (uid : Nat) :
    (recomputeRating s uid).1.reviews = s.reviews ∧
    ((recomputeRating s uid).2 = .ok () →
      ∃ u : User,
        (recomputeRating s uid).1.findUser uid = some u ∧
        u.rating = specAggregate s uid) := by
  by_cases hu : (s.findUser uid).isSome
  · obtain ⟨u0, hu0⟩ := Option.isSome_iff_exists.1 hu
    have huid : u0.id = uid := by
      have h := hu0
      unfold Store.findUser at h
      have h2 := List.find?_some h
      simpa using h2
    have hfu : ∀ v : ℚ,
        Store.findUser
          { s with users := s.users.map (setUserRating uid v) } uid =
          some { u0 with rating := v } := by
      intro v
      unfold Store.findUser
      show (s.users.map _).find? _ = _
      rw [find?_map_congr _ _ _ (fun x => by
        by_cases h1 : x.id = uid <;> simp [setUserRating, h1])]
      have h := hu0
      unfold Store.findUser at h
      rw [h]
      simp [setUserRating, huid]
    have hred : recomputeRating s uid =
        ({ s with users := s.users.map (setUserRating uid
            (((jsRound ((((s.reviews.filter (fun r =>
                decide (r.revieweeId = uid))).map
                  (fun r => (r.rating : ℚ))).sum /
                ((s.reviews.filter (fun r =>
                  decide (r.revieweeId = uid))).length : ℚ)) * 10)) : ℚ) /
              10)) },
          .ok ()) := by
      simp [recomputeRating, hu]
    refine ⟨by simp [recomputeRating, hu], fun _ => ?_⟩
    refine ⟨{ u0 with rating := specAggregate s uid }, ?_, rfl⟩
    show Store.findUser (recomputeRating s uid).1 uid = _
    rw [hred]
    refine Eq.trans (hfu _) ?_
    simp [specAggregate, jsRound, round_eq]
  · refine ⟨by simp [recomputeRating, hu], fun hok => ?_⟩
    simp [recomputeRating, hu] at hok

/-- Either `createReview` fails before writing anything, or it runs the
rating recomputation on the store extended with the new review. -/
theorem createReview_cases (s : Store) (callerId pid revieweeId rating : Nat) :
    (∃ e, createReview s callerId pid revieweeId rating = (s, .error e)) ∨
    createReview s callerId pid revieweeId rating =
      recomputeRating
        { s with
            nextId := s.nextId + 1
            reviews := s.reviews ++
              [⟨s.nextId, pid, callerId, revieweeId, rating⟩] }
        revieweeId := by
  unfold createReview
  cases s.findProject pid with
  | none => exact Or.inl ⟨_, rfl⟩
  | some p =>
    dsimp only
    split
    · exact Or.inl ⟨_, rfl⟩
    · split
      · exact Or.inl ⟨_, rfl⟩
      · split
        · exact Or.inl ⟨_, rfl⟩
        · exact Or.inr rfl

/-- Either `updateReview` with a new rating fails before writing, or it
runs the rating recomputation on the store with the review's rating
replaced. -/
theorem updateReview_cases (s : Store) (callerId reviewId newRating : Nat)
    (r : Review) (hr : s.findReview reviewId = some r) :
    (∃ e, updateReview s callerId reviewId (some newRating) =
      (s, .error e)) ∨
    updateReview s callerId reviewId (some newRating) =
      recomputeRating
        { s with reviews := s.reviews.map (fun x =>
            if x.id = reviewId then { x with rating := newRating } else x) }
        r.revieweeId := by
  unfold updateReview
  rw [hr]
  dsimp only
  split
  · exact Or.inl ⟨_, rfl⟩
  · exact Or.inr rfl

/-- **C7** — After every successful review creation and after every
successful review update that supplies a new rating, the reviewee's
stored aggregate rating equals the arithmetic mean of all ratings they
have received (read off the resulting review table), rounded to one
decimal place. -/
theorem review_rating_aggregate (s : Store)
    (callerId pid revieweeId rating updaterId reviewId newRating : Nat)
    (r : Review)
    (hr : s.findReview reviewId = some r) :
    ((createReview s callerId pid revieweeId rating).2 = .ok () →
      ∃ u : User,
        (createReview s callerId pid revieweeId rating).1.findUser
          revieweeId = some u ∧
        u.rating =
          specAggregate (createReview s callerId pid revieweeId rating).1
            revieweeId) ∧
    ((updateReview s updaterId reviewId (some newRating)).2 = .ok () →
      ∃ u : User,
        (updateReview s updaterId reviewId (some newRating)).1.findUser
          r.revieweeId = some u ∧
        u.rating =
          specAggregate
            (updateReview s updaterId reviewId (some newRating)).1
            r.revieweeId) := by
  constructor
  · intro hok
    rcases createReview_cases s callerId pid revieweeId rating with
      ⟨e, he⟩ | he
    · rw [he] at hok
      simp at hok
    · rw [he] at hok ⊢
      obtain ⟨hrev, hex⟩ := recomputeRating_spec _ revieweeId
      obtain ⟨u, hu, hval⟩ := hex hok
      exact ⟨u, hu, by
        rw [hval]
        exact (specAggregate_congr _ _ _ hrev).symm⟩
  · intro hok
    rcases updateReview_cases s updaterId reviewId newRating r hr with
      ⟨e, he⟩ | he
    · rw [he] at hok
      simp at hok
    · rw [he] at hok ⊢
      obtain ⟨hrev, hex⟩ := recomputeRating_spec _ r.revieweeId
      obtain ⟨u, hu, hval⟩ := hex hok
      exact ⟨u, hu, by
        rw [hval]
        exact (specAggregate_congr _ _ _ hrev).symm⟩

/-- A hand-built state for the rating example: project 3 is `PAID` with
freelancer 1's bid accepted, and freelancer 1 already carries two
reviews with ratings 5 and 4 (on other projects). -/
def ratingStore : Store :=
  ⟨60,
   [⟨0, "c@x", .CLIENT, [], 0⟩, ⟨1, "f@x", .FREELANCER, ["Spanish"], 0⟩],
   [⟨3, 0, .PAID, 500⟩],
   [⟨4, 3, 1, 450, .ACCEPTED⟩],
   [],
   [⟨50, 40, 7, 1, 5⟩, ⟨51, 41, 8, 1, 4⟩]⟩

/-- Witness for C7: adding a third rating of 5 to the ratings `[5, 4]`
stores the aggregate `4.7` (= 47/10), as in the spec's example, and a
rating update recomputes the aggregate as well. -/
theorem review_rating_aggregate_witness :
    (((createReview ratingStore 0 3 1 5).2 = .ok () →
      ∃ u : User,
        (createReview ratingStore 0 3 1 5).1.findUser 1 = some u ∧
        u.rating = specAggregate (createReview ratingStore 0 3 1 5).1 1) ∧
    ((updateReview ratingStore 7 50 (some 5)).2 = .ok () →
      ∃ u : User,
        (updateReview ratingStore 7 50 (some 5)).1.findUser
          (Review.mk 50 40 7 1 5).revieweeId = some u ∧
        u.rating = specAggregate (updateReview ratingStore 7 50 (some 5)).1
          (Review.mk 50 40 7 1 5).revieweeId)) ∧
    specAggregate (createReview ratingStore 0 3 1 5).1 1 = 47 / 10 :=
  ⟨review_rating_aggregate ratingStore 0 3 1 5 7 50 5 ⟨50, 40, 7, 1, 5⟩
    (by decide),
   by
    have h : (createReview ratingStore 0 3 1 5).1.reviews =
        [⟨50, 40, 7, 1, 5⟩, ⟨51, 41, 8, 1, 4⟩, ⟨60, 3, 0, 1, 5⟩] := by
      decide
    rw [show (47 / 10 : ℚ) = specAggregate
      (Store.mk 0 [] [] [] []
        [⟨50, 40, 7, 1, 5⟩, ⟨51, 41, 8, 1, 4⟩, ⟨60, 3, 0, 1, 5⟩]) 1 by
        simp [specAggregate, round_eq]
        norm_num]
    exact specAggregate_congr _ _ 1 (by rw [h])⟩

/-! ## C8: review creation error paths (order of checks) -/

/-- **C8 counterexample** — In the scenario state project 3 is `POSTED`
and caller 2 is neither the owner nor an accepted bidder, yet
`POST /reviews` answers Conflict (HTTP 400), not Forbidden (HTTP 403):
the status check runs before the authorization check. -/
theorem createReview_unauthorized_gets_conflict :
    (∀ p : Project, demoStore.findProject 3 = some p →
      p.clientId ≠ 2 ∧ p.status = .POSTED ∧
      ¬(demoStore.bids.any (fun b =>
        decide (b.projectId = 3 ∧ b.status = .ACCEPTED ∧
          b.freelancerId = 2))) = true) ∧
    createReview demoStore 2 3 1 5 = (demoStore, .error .Conflict) ∧
    ApiError.Conflict ≠ ApiError.Forbidden ∧
    ApiError.Conflict.httpStatus = 400 := by
  refine ⟨?_, rfl, by decide, rfl⟩
  intro p hp
  have : p = ⟨3, 0, .POSTED, 500⟩ := by
    have h : demoStore.findProject 3 = some ⟨3, 0, .POSTED, 500⟩ := by decide
    rw [h] at hp
    exact (Option.some_injective _ hp).symm
  subst this
  exact ⟨by decide, rfl, by decide⟩

/-- **C8 (amended)** — `POST /reviews` checks the project's status
before authorization: it fails with Conflict (HTTP 400) unless the
status is `COMPLETED` or `PAID`; when the status is acceptable it fails
with Forbidden (HTTP 403) unless the caller is the project's owner or a
freelancer with an `ACCEPTED` bid on the project; and when both checks
pass it fails with Conflict (HTTP 400) if a review with the same
(project, reviewer, reviewee) triple already exists. -/
theorem createReview_errors (s : Store) (callerId pid revieweeId rating : Nat)
    (p : Project) (hp : s.findProject pid = some p) :
    (p.status ≠ .PAID ∧ p.status ≠ .COMPLETED →
      createReview s callerId pid revieweeId rating =
        (s, .error .Conflict)) ∧
    ((p.status = .PAID ∨ p.status = .COMPLETED) →
      ¬(p.clientId = callerId ∨
        (s.bids.any (fun b =>
          decide (b.projectId = pid ∧ b.status = .ACCEPTED ∧
            b.freelancerId = callerId))) = true) →
      createReview s callerId pid revieweeId rating =
        (s, .error .Forbidden)) ∧
    ((p.status = .PAID ∨ p.status = .COMPLETED) →
      (p.clientId = callerId ∨
        (s.bids.any (fun b =>
          decide (b.projectId = pid ∧ b.status = .ACCEPTED ∧
            b.freelancerId = callerId))) = true) →
      (s.reviews.find? (fun r =>
        decide (r.projectId = pid ∧ r.reviewerId = callerId ∧
          r.revieweeId = revieweeId))).isSome →
      createReview s callerId pid revieweeId rating =
        (s, .error .Conflict)) ∧
    ApiError.Forbidden.httpStatus = 403 ∧
    ApiError.Conflict.httpStatus = 400 := by
  refine ⟨fun h1 => ?_, fun h1 h2 => ?_, fun h1 h2 h3 => ?_, rfl, rfl⟩
  · simp [createReview, hp, h1]
  · have h1' : ¬(p.status ≠ .PAID ∧ p.status ≠ .COMPLETED) := by
      rcases h1 with h | h <;> simp [h]
    have h2a : p.clientId ≠ callerId := fun hcc => h2 (Or.inl hcc)
    have h2c : ¬∃ x ∈ s.bids, x.projectId = pid ∧
        x.status = BidStatus.ACCEPTED ∧ x.freelancerId = callerId := by
      intro hex
      exact h2 (Or.inr (by simpa using hex))
    simp [createReview, hp, h1', h2a, h2c]
  · have h1' : ¬(p.status ≠ .PAID ∧ p.status ≠ .COMPLETED) := by
      rcases h1 with h | h <;> simp [h]
    have h3' : ∃ x ∈ s.reviews, x.projectId = pid ∧
        x.reviewerId = callerId ∧ x.revieweeId = revieweeId := by
      simpa using h3
    rcases h2 with hca | hcb
    · simp [createReview, hp, h1', hca, h3']
    · have hcb' : ∃ x ∈ s.bids, x.projectId = pid ∧
          x.status = BidStatus.ACCEPTED ∧ x.freelancerId = callerId := by
        simpa using hcb
      simp [createReview, hp, h1', hcb', h3']

/-- Witness for C8 (amended): instantiated at the post-release scenario
state, where project 3 is `PAID` and caller 2 is not a participant. -/
theorem createReview_errors_witness :
    ((Project.mk 3 0 .PAID 500).status ≠ .PAID ∧
        (Project.mk 3 0 .PAID 500).status ≠ .COMPLETED →
      createReview demoReleased 2 3 1 5 =
        (demoReleased, .error .Conflict)) ∧
    (((Project.mk 3 0 .PAID 500).status = .PAID ∨
        (Project.mk 3 0 .PAID 500).status = .COMPLETED) →
      ¬((Project.mk 3 0 .PAID 500).clientId = 2 ∨
        (demoReleased.bids.any (fun b =>
          decide (b.projectId = 3 ∧ b.status = .ACCEPTED ∧
            b.freelancerId = 2))) = true) →
      createReview demoReleased 2 3 1 5 =
        (demoReleased, .error .Forbidden)) ∧
    (((Project.mk 3 0 .PAID 500).status = .PAID ∨
        (Project.mk 3 0 .PAID 500).status = .COMPLETED) →
      ((Project.mk 3 0 .PAID 500).clientId = 2 ∨
        (demoReleased.bids.any (fun b =>
          decide (b.projectId = 3 ∧ b.status = .ACCEPTED ∧
            b.freelancerId = 2))) = true) →
      (demoReleased.reviews.find? (fun r =>
        decide (r.projectId = 3 ∧ r.reviewerId = 2 ∧
          r.revieweeId = 1))).isSome →
      createReview demoReleased 2 3 1 5 =
        (demoReleased, .error .Conflict)) ∧
    ApiError.Forbidden.httpStatus = 403 ∧
    ApiError.Conflict.httpStatus = 400 :=
  createReview_errors demoReleased 2 3 1 5 ⟨3, 0, .PAID, 500⟩ (by decide)

/-! ## C2 and C9: reachable-state invariants

The generic project-update route writes the `status` column without any
transition validation, which breaks both invariants; the counterexamples
below are concrete operation traces from the empty database. -/

/-- Number of `ACCEPTED` bids recorded against a project id. -/
def acceptedBidCount (s : Store) (pid : Nat) : Nat :=
  s.bids.countP (fun b =>
    decide (b.projectId = pid ∧ b.status = .ACCEPTED))

/-- Number of escrow transactions recorded against a project id. -/
def txnCountOn (s : Store) (pid : Nat) : Nat :=
  s.txns.countP (fun t => decide (t.projectId = pid))

/-- Position of a status on the claimed one-directional chain
`POSTED → IN_PROGRESS → COMPLETED → PAID`. -/
def chainRank : ProjectStatus → Nat
  | .POSTED => 0
  | .IN_PROGRESS => 1
  | .COMPLETED => 2
  | .PAID => 3
  | .CANCELLED => 4

/-- The transitions claim C9 allows for one step: unchanged, strictly
forward along the chain, or entering the terminal `CANCELLED` from a
non-`PAID` state. -/
def StepOk (old new : ProjectStatus) : Prop :=
  old = new ∨
  (old ≠ .CANCELLED ∧ new ≠ .CANCELLED ∧ chainRank old < chainRank new) ∨
  (new = .CANCELLED ∧ old ≠ .PAID)

/-- Operations that never write the project-status column through the
generic `PUT /projects/:id` route. -/
def Op.statusFree : Op → Prop
  | .updateProject _ _ _ status? => status? = none
  | _ => True

/-- Status-free operations that also avoid the payment-confirmation
upsert (which can reset a settled transaction to `PENDING`). -/
def Op.lifecycleOnly : Op → Prop
  | .updateProject _ _ _ status? => status? = none
  | .confirmPayment _ _ _ _ _ => False
  | _ => True

/-- Reachability from the empty store through allowed operations only. -/
def ReachableVia (allowed : Op → Prop) (s : Store) : Prop :=
  ∃ ops : List Op, (∀ op ∈ ops, allowed op) ∧ runOps ops = s

/-- C2 counterexample trace: after accepting freelancer A's bid, the
owner resets the project to `POSTED` through the unvalidated update
route and then accepts freelancer B's bid as well. -/
def c2Ops : List Op :=
  demoOps ++ [.acceptBid 0 4, .updateProject 0 3 none (some .POSTED),
    .acceptBid 0 5]

/-- The state reached by the C2 counterexample trace. -/
def c2Store : Store := runOps c2Ops

/-- **C2 counterexample** — A reachable state carries two `ACCEPTED`
bids on the same project: accept bid A, reset the project's status to
`POSTED` with `PUT /projects/:id` (no transition check), accept bid B;
bid A is never un-accepted. -/
theorem two_accepted_bids_reachable :
    Reachable c2Store ∧ acceptedBidCount c2Store 3 = 2 :=
  ⟨⟨c2Ops, rfl⟩, by decide⟩

/-- C9 counterexample trace: the owner cancels the posted project
through the update route. -/
def c9Ops : List Op :=
  [.register "client@x" .CLIENT [], .createProject 0 500,
   .updateProject 0 1 none (some .CANCELLED)]

/-- The state reached by the C9 counterexample trace. -/
def c9Store : Store := runOps c9Ops

/-- **C9 counterexample** — `CANCELLED` is not terminal: from a
reachable state whose project is `CANCELLED`, one `PUT /projects/:id`
call moves the project back to `POSTED`, a transition the claim
forbids. -/
theorem cancelled_not_terminal :
    Reachable c9Store ∧
    c9Store.projStatus 1 = some .CANCELLED ∧
    (Op.apply (.updateProject 0 1 none (some .POSTED)) c9Store).projStatus 1 =
      some .POSTED ∧
    ¬ StepOk .CANCELLED .POSTED :=
  ⟨⟨c9Ops, rfl⟩, by decide, by decide, by unfold StepOk; decide⟩

/-! ### Counting helpers -/

/-- Two distinct members satisfying a predicate force a count of at
least two. -/
theorem two_le_countP {α : Type} (l : List α) (p : α → Bool) (a b : α)
    (ha : a ∈ l) (hb : b ∈ l) (hne : a ≠ b) (hpa : p a = true)
    (hpb : p b = true) : 2 ≤ l.countP p := by
  have hfa : a ∈ l.filter p := List.mem_filter.2 ⟨ha, hpa⟩
  have hfb : b ∈ l.filter p := List.mem_filter.2 ⟨hb, hpb⟩
  rw [List.countP_eq_length_filter]
  rcases hl : l.filter p with _ | ⟨x, _ | ⟨y, t⟩⟩
  · rw [hl] at hfa
    simp at hfa
  · rw [hl] at hfa hfb
    simp at hfa hfb
    exact absurd (hfa.trans hfb.symm) hne
  · simp

/-- A map that does not change a predicate on the members does not
change the count. -/
theorem countP_map_eq {α : Type} (l : List α) (f : α → α) (p : α → Bool)
    (hf : ∀ x ∈ l, p (f x) = p x) :
    (l.map f).countP p = l.countP p := by
  rw [List.countP_map]
  exact List.countP_congr (fun x hx => by
    rw [Function.comp_apply, hf x hx])

/-! ### The bid invariant (claim C2) -/

/-- Bookkeeping invariant maintained by every status-free operation:
record ids are pairwise distinct and below the fresh-id counter, bids
only reference already-allocated project ids, and each project id
carries at most one `ACCEPTED` bid — none while its project is
`POSTED`. -/
structure BidInv (s : Store) : Prop where
  bid_ids_nodup : (s.bids.map (·.id)).Nodup
  bid_id_lt : ∀ b ∈ s.bids, b.id < s.nextId
  bid_proj_lt : ∀ b ∈ s.bids, b.projectId < s.nextId
  proj_ids_nodup : (s.projects.map (·.id)).Nodup
  proj_id_lt : ∀ p ∈ s.projects, p.id < s.nextId
  accepted_le_one : ∀ pid, acceptedBidCount s pid ≤ 1
  posted_no_accepted : ∀ pid, s.projStatus pid = some .POSTED →
    acceptedBidCount s pid = 0

/-- The empty database satisfies the bid invariant. -/
theorem bidInv_empty : BidInv Store.empty := by
  refine ⟨List.nodup_nil, ?_, ?_, List.nodup_nil, ?_, ?_, ?_⟩
  · intro b hb
    simp [Store.empty] at hb
  · intro b hb
    simp [Store.empty] at hb
  · intro q hq
    simp [Store.empty] at hq
  · intro pid
    simp [acceptedBidCount, Store.empty]
  · intro pid hpid
    simp [Store.projStatus, Store.findProject, Store.empty] at hpid

/-- The bid invariant transfers along equal bid and project tables and a
non-decreasing fresh-id counter. -/
theorem BidInv.ofEqTables (s s' : Store) (h : BidInv s)
    (hb : s'.bids = s.bids) (hp : s'.projects = s.projects)
    (hn : s.nextId ≤ s'.nextId) : BidInv s' := by
  constructor
  · rw [hb]
    exact h.bid_ids_nodup
  · intro b hbm
    rw [hb] at hbm
    exact lt_of_lt_of_le (h.bid_id_lt b hbm) hn
  · intro b hbm
    rw [hb] at hbm
    exact lt_of_lt_of_le (h.bid_proj_lt b hbm) hn
  · rw [hp]
    exact h.proj_ids_nodup
  · intro q hq
    rw [hp] at hq
    exact lt_of_lt_of_le (h.proj_id_lt q hq) hn
  · intro pid
    show s'.bids.countP _ ≤ 1
    rw [hb]
    exact h.accepted_le_one pid
  · intro pid hpost
    have hpre : s.projStatus pid = some .POSTED := by
      unfold Store.projStatus Store.findProject at hpost ⊢
      rw [hp] at hpost
      exact hpost
    show s'.bids.countP _ = 0
    rw [hb]
    exact h.posted_no_accepted pid hpre

/-- The bid invariant is preserved by rewriting the project table
through an id-preserving, `POSTED`-reflecting map (with arbitrary
changes to the other tables, tracked by `BidInv.ofEqTables`). -/
theorem BidInv.project_map (s : Store) (g : Project → Project)
    (hid : ∀ q, (g q).id = q.id)
    (hpost : ∀ q, (g q).status = .POSTED → q.status = .POSTED)
    (h : BidInv s) : BidInv { s with projects := s.projects.map g } := by
  have hfind : ∀ pid : Nat,
      Store.findProject { s with projects := s.projects.map g } pid =
        (s.findProject pid).map g := fun pid => by
    show (s.projects.map g).find? _ = _
    exact find?_map_congr _ _ _ (fun q => by
      show decide ((g q).id = pid) = decide (q.id = pid)
      rw [hid])
  constructor
  · exact h.bid_ids_nodup
  · exact h.bid_id_lt
  · exact h.bid_proj_lt
  · show ((s.projects.map g).map (·.id)).Nodup
    rw [List.map_map]
    have heq : ((fun q : Project => q.id) ∘ g) =
        (fun q : Project => q.id) := funext fun q => hid q
    rw [heq]
    exact h.proj_ids_nodup
  · intro q hq
    rw [List.mem_map] at hq
    obtain ⟨q0, hq0, rfl⟩ := hq
    rw [hid]
    exact h.proj_id_lt q0 hq0
  · exact h.accepted_le_one
  · intro pid hpost'
    unfold Store.projStatus at hpost'
    rw [hfind pid] at hpost'
    cases hfp : s.findProject pid with
    | none =>
      rw [hfp] at hpost'
      simp at hpost'
    | some q0 =>
      rw [hfp] at hpost'
      have hst : (g q0).status = .POSTED := by
        simpa using hpost'
      have hq0 : s.projStatus pid = some .POSTED := by
        unfold Store.projStatus
        rw [hfp]
        simp [hpost q0 hst]
      exact h.posted_no_accepted pid hq0

/-- The bid invariant is preserved by rewriting the bid table through a
map that keeps ids, project references and `ACCEPTED`-ness of every
member. -/
theorem BidInv.bid_map (s : Store) (f : Bid → Bid)
    (hid : ∀ x, (f x).id = x.id)
    (hproj : ∀ x, (f x).projectId = x.projectId)
    (hacc : ∀ x ∈ s.bids,
      ((f x).status = BidStatus.ACCEPTED) = (x.status = .ACCEPTED))
    (h : BidInv s) : BidInv { s with bids := s.bids.map f } := by
  have hcount : ∀ pid : Nat,
      acceptedBidCount { s with bids := s.bids.map f } pid =
        acceptedBidCount s pid := fun pid => by
    show (s.bids.map f).countP _ = s.bids.countP _
    exact countP_map_eq _ _ _ (fun x hx => by
      show decide ((f x).projectId = pid ∧ (f x).status = .ACCEPTED) =
        decide (x.projectId = pid ∧ x.status = .ACCEPTED)
      rw [hproj]
      by_cases hpp : x.projectId = pid
      · simp only [hpp, true_and]
        exact decide_eq_decide.2 (iff_of_eq (hacc x hx))
      · simp [hpp])
  constructor
  · show ((s.bids.map f).map (·.id)).Nodup
    rw [List.map_map]
    have heq : ((fun x : Bid => x.id) ∘ f) = (fun x : Bid => x.id) :=
      funext fun x => hid x
    rw [heq]
    exact h.bid_ids_nodup
  · intro b hbm
    rw [List.mem_map] at hbm
    obtain ⟨b0, hb0, rfl⟩ := hbm
    rw [hid]
    exact h.bid_id_lt b0 hb0
  · intro b hbm
    rw [List.mem_map] at hbm
    obtain ⟨b0, hb0, rfl⟩ := hbm
    rw [hproj]
    exact h.bid_proj_lt b0 hb0
  · exact h.proj_ids_nodup
  · exact h.proj_id_lt
  · intro pid
    rw [hcount pid]
    exact h.accepted_le_one pid
  · intro pid hpost
    rw [hcount pid]
    exact h.posted_no_accepted pid hpost

/-! ### Facts about the named writes -/

/-- `acceptBidWrite` keeps bid ids. -/
theorem acceptBidWrite_id (bidId pid : Nat) (x : Bid) :
    (acceptBidWrite bidId pid x).id = x.id := by
  unfold acceptBidWrite
  split
  · rfl
  · split <;> rfl

/-- `acceptBidWrite` keeps project references. -/
theorem acceptBidWrite_projectId (bidId pid : Nat) (x : Bid) :
    (acceptBidWrite bidId pid x).projectId = x.projectId := by
  unfold acceptBidWrite
  split
  · rfl
  · split <;> rfl

/-- `setProjectStatus` keeps project ids. -/
theorem setProjectStatus_id (pid : Nat) (st : ProjectStatus) (q : Project) :
    (setProjectStatus pid st q).id = q.id := by
  unfold setProjectStatus
  split <;> rfl

/-- `editProject` keeps project ids. -/
theorem editProject_id (pid : Nat) (budget? : Option ℚ)
    (status? : Option ProjectStatus) (q : Project) :
    (editProject pid budget? status? q).id = q.id := by
  unfold editProject
  split <;> rfl

/-- Without a requested status, `editProject` keeps the status. -/
theorem editProject_status_none (pid : Nat) (budget? : Option ℚ)
    (q : Project) : (editProject pid budget? none q).status = q.status := by
  unfold editProject
  split <;> rfl

/-- `setBidStatus` keeps bid ids. -/
theorem setBidStatus_id (bidId : Nat) (st : BidStatus) (x : Bid) :
    (setBidStatus bidId st x).id = x.id := by
  unfold setBidStatus
  split <;> rfl

/-- `setBidStatus` keeps project references. -/
theorem setBidStatus_projectId (bidId : Nat) (st : BidStatus) (x : Bid) :
    (setBidStatus bidId st x).projectId = x.projectId := by
  unfold setBidStatus
  split <;> rfl

/-- `setTxnStatus` keeps transaction ids. -/
theorem setTxnStatus_id (tid : Nat) (st : TxStatus) (t : Txn) :
    (setTxnStatus tid st t).id = t.id := by
  unfold setTxnStatus
  split <;> rfl

/-- `setTxnStatus` keeps project references. -/
theorem setTxnStatus_projectId (tid : Nat) (st : TxStatus) (t : Txn) :
    (setTxnStatus tid st t).projectId = t.projectId := by
  unfold setTxnStatus
  split <;> rfl

/-- `setTxnPendingOn` keeps transaction ids. -/
theorem setTxnPendingOn_id (pid callerId : Nat) (t : Txn) :
    (setTxnPendingOn pid callerId t).id = t.id := by
  unfold setTxnPendingOn
  split <;> rfl

/-- `setTxnPendingOn` keeps project references. -/
theorem setTxnPendingOn_projectId (pid callerId : Nat) (t : Txn) :
    (setTxnPendingOn pid callerId t).projectId = t.projectId := by
  unfold setTxnPendingOn
  split <;> rfl

/-- `recomputeRating` only rewrites the user table. -/
theorem recomputeRating_tables (s : Store) (uid : Nat) :
    (recomputeRating s uid).1.bids = s.bids ∧
    (recomputeRating s uid).1.projects = s.projects ∧
    (recomputeRating s uid).1.txns = s.txns ∧
    (recomputeRating s uid).1.reviews = s.reviews ∧
    (recomputeRating s uid).1.nextId = s.nextId := by
  unfold recomputeRating
  split <;> exact ⟨rfl, rfl, rfl, rfl, rfl⟩

/-! ### Preservation of the bid invariant, operation by operation -/

/-- Registration preserves the bid invariant. -/
theorem bidInv_register (s : Store) (email : String) (role : Role)
    (langs : List String) (h : BidInv s) :
    BidInv (registerUser s email role langs).1 := by
  unfold registerUser
  split
  · exact h
  · exact BidInv.ofEqTables s _ h rfl rfl (Nat.le_succ _)

/-- Project creation preserves the bid invariant. -/
theorem bidInv_createProject (s : Store) (caller : Nat) (budget : ℚ)
    (h : BidInv s) : BidInv (createProject s caller budget).1 := by
  unfold createProject
  constructor
  · exact h.bid_ids_nodup
  · intro b hb
    exact lt_of_lt_of_le (h.bid_id_lt b hb) (Nat.le_succ _)
  · intro b hb
    exact lt_of_lt_of_le (h.bid_proj_lt b hb) (Nat.le_succ _)
  · show ((s.projects ++
        [(⟨s.nextId, caller, .POSTED, budget⟩ : Project)]).map
          (fun p : Project => p.id)).Nodup
    rw [List.map_append, List.nodup_append]
    refine ⟨h.proj_ids_nodup, List.nodup_singleton _, ?_⟩
    intro a ha hmem
    simp only [List.map_cons, List.map_nil, List.mem_singleton] at hmem
    subst hmem
    rw [List.mem_map] at ha
    obtain ⟨q, hq, hqid⟩ := ha
    exact absurd hqid (Nat.ne_of_lt (h.proj_id_lt q hq))
  · intro q hq
    rw [List.mem_append] at hq
    rcases hq with hq | hq
    · exact lt_of_lt_of_le (h.proj_id_lt q hq) (Nat.le_succ _)
    · simp only [List.mem_singleton] at hq
      subst hq
      exact Nat.lt_succ_self _
  · exact h.accepted_le_one
  · intro pid hpost
    unfold Store.projStatus Store.findProject at hpost
    rw [List.find?_append] at hpost
    cases hfp : s.projects.find? (fun p => decide (p.id = pid)) with
    | some q0 =>
      rw [hfp] at hpost
      simp only [Option.or_some] at hpost
      show s.bids.countP _ = 0
      exact h.posted_no_accepted pid (by
        unfold Store.projStatus Store.findProject
        rw [hfp]
        exact hpost)
    | none =>
      by_cases hpid : s.nextId = pid
      · show s.bids.countP _ = 0
        rw [List.countP_eq_zero]
        intro b hb
        have hlt := h.bid_proj_lt b hb
        simp only [decide_eq_true_eq, not_and]
        intro hbp
        exact absurd hbp (by omega)
      · rw [hfp] at hpost
        simp [List.find?_cons, hpid] at hpost

/-- Bid submission preserves the bid invariant. -/
theorem bidInv_submitBid (s : Store) (caller pid : Nat) (amount : ℚ)
    (h : BidInv s) : BidInv (submitBid s caller pid amount).1 := by
  unfold submitBid
  cases hfp : s.findProject pid with
  | none => exact h
  | some p =>
    have hpmem : p ∈ s.projects := by
      have h' := hfp
      unfold Store.findProject at h'
      exact List.mem_of_find?_eq_some h'
    have hppid : p.id = pid := by
      have h' := hfp
      unfold Store.findProject at h'
      have h2 := List.find?_some h'
      simpa using h2
    have hpidlt : pid < s.nextId := hppid ▸ h.proj_id_lt p hpmem
    dsimp only
    split
    · exact h
    · split
      · exact h
      · split
        · exact h
        · constructor
          · show ((s.bids ++
                [(⟨s.nextId, pid, caller, amount, .PENDING⟩ : Bid)]).map
                  (fun b : Bid => b.id)).Nodup
            rw [List.map_append, List.nodup_append]
            refine ⟨h.bid_ids_nodup, List.nodup_singleton _, ?_⟩
            intro a ha hmem
            simp only [List.map_cons, List.map_nil,
              List.mem_singleton] at hmem
            subst hmem
            rw [List.mem_map] at ha
            obtain ⟨b0, hb0, hbid0⟩ := ha
            exact absurd hbid0 (Nat.ne_of_lt (h.bid_id_lt b0 hb0))
          · intro b hb
            rw [List.mem_append] at hb
            rcases hb with hb | hb
            · exact lt_of_lt_of_le (h.bid_id_lt b hb) (Nat.le_succ _)
            · simp only [List.mem_singleton] at hb
              subst hb
              exact Nat.lt_succ_self _
          · intro b hb
            rw [List.mem_append] at hb
            rcases hb with hb | hb
            · exact lt_of_lt_of_le (h.bid_proj_lt b hb) (Nat.le_succ _)
            · simp only [List.mem_singleton] at hb
              subst hb
              show pid < s.nextId + 1
              omega
          · exact h.proj_ids_nodup
          · intro q hq
            exact lt_of_lt_of_le (h.proj_id_lt q hq) (Nat.le_succ _)
          · intro pid'
            show (s.bids ++ [(⟨s.nextId, pid, caller, amount,
                BidStatus.PENDING⟩ : Bid)]).countP (fun b =>
                  decide (b.projectId = pid' ∧
                    b.status = BidStatus.ACCEPTED)) ≤ 1
            rw [List.countP_append]
            have hsing : ([(⟨s.nextId, pid, caller, amount,
                BidStatus.PENDING⟩ : Bid)].countP (fun b =>
                  decide (b.projectId = pid' ∧
                    b.status = BidStatus.ACCEPTED))) = 0 := by
              simp
            rw [hsing]
            simpa [acceptedBidCount] using h.accepted_le_one pid'
          · intro pid' hpost
            show (s.bids ++ [(⟨s.nextId, pid, caller, amount,
                BidStatus.PENDING⟩ : Bid)]).countP (fun b =>
                  decide (b.projectId = pid' ∧
                    b.status = BidStatus.ACCEPTED)) = 0
            rw [List.countP_append]
            have hsing : ([(⟨s.nextId, pid, caller, amount,
                BidStatus.PENDING⟩ : Bid)].countP (fun b =>
                  decide (b.projectId = pid' ∧
                    b.status = BidStatus.ACCEPTED))) = 0 := by
              simp
            rw [hsing]
            simpa [acceptedBidCount] using h.posted_no_accepted pid' hpost

/-- Bid rejection preserves the bid invariant. -/
theorem bidInv_rejectBid (s : Store) (caller bidId : Nat) (h : BidInv s) :
    BidInv (rejectBid s caller bidId).1 := by
  unfold rejectBid
  cases hfb : s.findBid bidId with
  | none => exact h
  | some b =>
    dsimp only
    cases hfp : s.findProject b.projectId with
    | none => exact h
    | some p =>
      have hmem : b ∈ s.bids := by
        have h' := hfb
        unfold Store.findBid at h'
        exact List.mem_of_find?_eq_some h'
      have hbid : b.id = bidId := by
        have h' := hfb
        unfold Store.findBid at h'
        have h2 := List.find?_some h'
        simpa using h2
      have hxid : ∀ x ∈ s.bids, x.id = bidId → x = b := by
        intro x hx hxe
        exact List.inj_on_of_nodup_map h.bid_ids_nodup hx hmem
          (by rw [hxe, hbid])
      dsimp only
      by_cases hcl : p.clientId ≠ caller
      · rw [if_pos hcl]
        exact h
      · rw [if_neg hcl]
        by_cases hbs : b.status ≠ BidStatus.PENDING
        · rw [if_pos hbs]
          exact h
        · rw [if_neg hbs]
          have hpend : b.status = .PENDING := not_not.1 hbs
          refine BidInv.bid_map s _ (setBidStatus_id bidId .REJECTED)
            (setBidStatus_projectId bidId .REJECTED) ?_ h
          intro x hx
          by_cases e1 : x.id = bidId
          · have hxb : x = b := hxid x hx e1
            subst hxb
            simp [setBidStatus, e1, hpend]
          · simp [setBidStatus, e1]

/-- Bid acceptance preserves the bid invariant: it only fires while the
project is `POSTED` — hence carries no `ACCEPTED` bid — and it accepts
exactly the one target bid. -/
theorem bidInv_acceptBid (s : Store) (caller bidId : Nat) (h : BidInv s) :
    BidInv (acceptBid s caller bidId).1 := by
  unfold acceptBid
  cases hfb : s.findBid bidId with
  | none => exact h
  | some b =>
    dsimp only
    cases hfp : s.findProject b.projectId with
    | none => exact h
    | some p =>
      dsimp only
      by_cases hcl : p.clientId ≠ caller
      · rw [if_pos hcl]
        exact h
      · rw [if_neg hcl]
        by_cases hps : p.status ≠ ProjectStatus.POSTED
        · rw [if_pos hps]
          exact h
        · rw [if_neg hps]
          have hst : p.status = .POSTED := not_not.1 hps
          have hmem : b ∈ s.bids := by
            have h' := hfb
            unfold Store.findBid at h'
            exact List.mem_of_find?_eq_some h'
          have hbid : b.id = bidId := by
            have h' := hfb
            unfold Store.findBid at h'
            have h2 := List.find?_some h'
            simpa using h2
          have hxid : ∀ x ∈ s.bids, x.id = bidId → x = b := by
            intro x hx hxe
            exact List.inj_on_of_nodup_map h.bid_ids_nodup hx hmem
              (by rw [hxe, hbid])
          have hzero : ∀ x ∈ s.bids,
              ¬(x.projectId = b.projectId ∧
                x.status = BidStatus.ACCEPTED) := by
            have hz : acceptedBidCount s b.projectId = 0 :=
              h.posted_no_accepted b.projectId (by
                unfold Store.projStatus
                rw [hfp]
                simp [hst])
            intro x hx
            have hcz := List.countP_eq_zero.1 hz x hx
            simpa using hcz
          have hcount_ne : ∀ pid', pid' ≠ b.projectId →
              (s.bids.map (acceptBidWrite bidId b.projectId)).countP
                (fun x => decide (x.projectId = pid' ∧
                  x.status = BidStatus.ACCEPTED)) =
              s.bids.countP (fun x => decide (x.projectId = pid' ∧
                x.status = BidStatus.ACCEPTED)) := by
            intro pid' hpp
            apply countP_map_eq
            intro x hx
            have hne : b.projectId ≠ pid' := fun hh => hpp hh.symm
            by_cases e1 : x.id = bidId
            · have hxb : x = b := hxid x hx e1
              subst hxb
              simp [acceptBidWrite, e1, hne]
            · by_cases e2 : x.projectId = b.projectId ∧
                  x.status = BidStatus.PENDING
              · obtain ⟨e2a, e2b⟩ := e2
                simp [acceptBidWrite, e1, e2a, e2b, hne]
              · simp [acceptBidWrite, e1, e2]
          have hcount_eq :
              (s.bids.map (acceptBidWrite bidId b.projectId)).countP
                (fun x => decide (x.projectId = b.projectId ∧
                  x.status = BidStatus.ACCEPTED)) = 1 := by
            rw [List.countP_map]
            have hcong : ∀ x ∈ s.bids,
                (((fun x : Bid => decide (x.projectId = b.projectId ∧
                  x.status = BidStatus.ACCEPTED)) ∘
                  acceptBidWrite bidId b.projectId) x = true) ↔
                (decide (x.id = bidId) = true) := by
              intro x hx
              simp only [Function.comp_apply, decide_eq_true_eq]
              constructor
              · intro hpx
                by_cases e1 : x.id = bidId
                · exact e1
                · exfalso
                  unfold acceptBidWrite at hpx
                  rw [if_neg e1] at hpx
                  by_cases e2 : x.projectId = b.projectId ∧
                      x.status = BidStatus.PENDING
                  · rw [if_pos e2] at hpx
                    exact absurd hpx.2 (by simp)
                  · rw [if_neg e2] at hpx
                    exact hzero x hx hpx
              · intro e1
                have hxb : x = b := hxid x hx e1
                subst hxb
                unfold acceptBidWrite
                rw [if_pos e1]
                exact ⟨rfl, rfl⟩
            rw [List.countP_congr hcong]
            have h1 : s.bids.countP (fun x => decide (x.id = bidId)) =
                (s.bids.map (fun x : Bid => x.id)).count bidId := by
              rw [List.count_eq_countP, List.countP_map]
              exact (List.countP_congr (fun x hx => by simp)).symm
            rw [h1, List.count_eq_one_of_mem h.bid_ids_nodup
              (by rw [← hbid]; exact List.mem_map_of_mem _ hmem)]
          constructor
          · show ((s.bids.map (acceptBidWrite bidId b.projectId)).map
              (fun x : Bid => x.id)).Nodup
            rw [List.map_map]
            have heq : ((fun x : Bid => x.id) ∘
                acceptBidWrite bidId b.projectId) =
                (fun x : Bid => x.id) :=
              funext fun x => acceptBidWrite_id bidId b.projectId x
            rw [heq]
            exact h.bid_ids_nodup
          · intro x hx
            rw [List.mem_map] at hx
            obtain ⟨x0, hx0, rfl⟩ := hx
            rw [acceptBidWrite_id]
            exact lt_of_lt_of_le (h.bid_id_lt x0 hx0) (Nat.le_succ _)
          · intro x hx
            rw [List.mem_map] at hx
            obtain ⟨x0, hx0, rfl⟩ := hx
            rw [acceptBidWrite_projectId]
            exact lt_of_lt_of_le (h.bid_proj_lt x0 hx0) (Nat.le_succ _)
          · show ((s.projects.map
              (setProjectStatus b.projectId .IN_PROGRESS)).map
                (fun q : Project => q.id)).Nodup
            rw [List.map_map]
            have heq : ((fun q : Project => q.id) ∘
                setProjectStatus b.projectId .IN_PROGRESS) =
                (fun q : Project => q.id) :=
              funext fun q => setProjectStatus_id _ _ q
            rw [heq]
            exact h.proj_ids_nodup
          · intro q hq
            rw [List.mem_map] at hq
            obtain ⟨q0, hq0, rfl⟩ := hq
            rw [setProjectStatus_id]
            exact lt_of_lt_of_le (h.proj_id_lt q0 hq0) (Nat.le_succ _)
          · intro pid'
            show (s.bids.map (acceptBidWrite bidId b.projectId)).countP
              (fun x => decide (x.projectId = pid' ∧
                x.status = BidStatus.ACCEPTED)) ≤ 1
            by_cases hpp : pid' = b.projectId
            · subst hpp
              rw [hcount_eq]
            · rw [hcount_ne pid' hpp]
              exact h.accepted_le_one pid'
          · intro pid' hpost
            unfold Store.projStatus Store.findProject at hpost
            rw [find?_map_congr _ _ _ (fun q => by
              show decide ((setProjectStatus b.projectId
                ProjectStatus.IN_PROGRESS q).id = pid') =
                decide (q.id = pid')
              rw [setProjectStatus_id])] at hpost
            cases hfp' : s.projects.find? (fun q => decide (q.id = pid'))
              with
            | none =>
              rw [hfp'] at hpost
              simp at hpost
            | some q0 =>
              rw [hfp'] at hpost
              have hq0st : (setProjectStatus b.projectId
                  ProjectStatus.IN_PROGRESS q0).status =
                  ProjectStatus.POSTED := by
                simpa using hpost
              have hq0ne : q0.id ≠ b.projectId := by
                intro he
                unfold setProjectStatus at hq0st
                rw [if_pos he] at hq0st
                exact absurd hq0st (by simp)
              have hq0post : q0.status = ProjectStatus.POSTED := by
                unfold setProjectStatus at hq0st
                rwa [if_neg hq0ne] at hq0st
              have hq0id : q0.id = pid' := by
                have h2 := List.find?_some hfp'
                simpa using h2
              have hppne : pid' ≠ b.projectId := hq0id ▸ hq0ne
              show (s.bids.map (acceptBidWrite bidId b.projectId)).countP
                (fun x => decide (x.projectId = pid' ∧
                  x.status = BidStatus.ACCEPTED)) = 0
              rw [hcount_ne pid' hppne]
              exact h.posted_no_accepted pid' (by
                unfold Store.projStatus Store.findProject
                rw [hfp']
                simp [hq0post])

/-- The generic project update without a status write preserves the bid
invariant. -/
theorem bidInv_updateProject (s : Store) (caller pid : Nat)
    (budget? : Option ℚ) (h : BidInv s) :
    BidInv (updateProject s caller pid budget? none).1 := by
  unfold updateProject
  cases hfp : s.findProject pid with
  | none => exact h
  | some p =>
    dsimp only
    split
    · exact h
    · refine BidInv.project_map s _ (editProject_id pid budget? none) ?_ h
      intro q hq
      rw [editProject_status_none] at hq
      exact hq

/-- The payment-confirmation upsert preserves the bid invariant. -/
theorem bidInv_confirmPayment (s : Store) (caller pid freelancerId : Nat)
    (amount : ℚ) (succeeded : Bool) (h : BidInv s) :
    BidInv (confirmPayment s caller pid freelancerId amount succeeded).1 := by
  unfold confirmPayment
  split
  · exact h
  · split
    · exact BidInv.ofEqTables s _ h rfl rfl le_rfl
    · exact BidInv.ofEqTables s _ h rfl rfl (Nat.le_succ _)

/-- Escrow release preserves the bid invariant. -/
theorem bidInv_releaseTxn (s : Store) (caller tid : Nat) (h : BidInv s) :
    BidInv (releaseTxn s caller tid).1 := by
  unfold releaseTxn
  cases hft : s.findTxn tid with
  | none => exact h
  | some t =>
    dsimp only
    split
    · exact h
    · split
      · exact h
      · have h1 : BidInv { s with
            txns := s.txns.map (setTxnStatus tid .RELEASED) } :=
          BidInv.ofEqTables s _ h rfl rfl le_rfl
        split
        · exact BidInv.project_map _ _
            (setProjectStatus_id t.projectId .PAID) (fun q hq => by
              unfold setProjectStatus at hq
              split at hq
              · exact absurd hq (by simp)
              · exact hq) h1
        · exact h1

/-- Escrow refund preserves the bid invariant. -/
theorem bidInv_refundTxn (s : Store) (caller tid : Nat) (h : BidInv s) :
    BidInv (refundTxn s caller tid).1 := by
  unfold refundTxn
  cases hft : s.findTxn tid with
  | none => exact h
  | some t =>
    dsimp only
    split
    · exact h
    · split
      · exact h
      · have h1 : BidInv { s with
            txns := s.txns.map (setTxnStatus tid .REFUNDED) } :=
          BidInv.ofEqTables s _ h rfl rfl le_rfl
        split
        · exact BidInv.project_map _ _
            (setProjectStatus_id t.projectId .CANCELLED) (fun q hq => by
              unfold setProjectStatus at hq
              split at hq
              · exact absurd hq (by simp)
              · exact hq) h1
        · exact h1

/-- Review creation preserves the bid invariant. -/
theorem bidInv_createReview (s : Store) (caller pid revieweeId rating : Nat)
    (h : BidInv s) : BidInv (createReview s caller pid revieweeId rating).1 := by
  rcases createReview_cases s caller pid revieweeId rating with ⟨e, he⟩ | he
  · rw [he]
    exact h
  · rw [he]
    obtain ⟨hb, hp, -, -, hn⟩ := recomputeRating_tables _ revieweeId
    exact BidInv.ofEqTables s _ h (by rw [hb]) (by rw [hp])
      (by rw [hn]; exact Nat.le_succ _)

/-- Review update preserves the bid invariant. -/
theorem bidInv_updateReview (s : Store) (caller reviewId : Nat)
    (rating? : Option Nat) (h : BidInv s) :
    BidInv (updateReview s caller reviewId rating?).1 := by
  unfold updateReview
  cases hfr : s.findReview reviewId with
  | none => exact h
  | some r =>
    dsimp only
    split
    · exact h
    · cases rating? with
      | none => exact h
      | some newRating =>
        obtain ⟨hb, hp, -, -, hn⟩ := recomputeRating_tables
          ({ s with reviews := s.reviews.map (setReviewRating reviewId newRating) })
          r.revieweeId
        exact BidInv.ofEqTables s _ h (by rw [hb]) (by rw [hp]) (by rw [hn])

/-- Every status-free operation preserves the bid invariant. -/
theorem bidInv_step (s : Store) (op : Op) (hop : op.statusFree)
    (h : BidInv s) : BidInv (op.apply s) := by
  cases op with
  | register email role langs => exact bidInv_register s email role langs h
  | createProject caller budget => exact bidInv_createProject s caller budget h
  | submitBid caller pid amount => exact bidInv_submitBid s caller pid amount h
  | acceptBid caller bidId => exact bidInv_acceptBid s caller bidId h
  | rejectBid caller bidId => exact bidInv_rejectBid s caller bidId h
  | updateProject caller pid budget? status? =>
      have hnone : status? = none := hop
      subst hnone
      exact bidInv_updateProject s caller pid budget? h
  | confirmPayment caller pid freelancerId amount succeeded =>
      exact bidInv_confirmPayment s caller pid freelancerId amount succeeded h
  | releaseTxn caller tid => exact bidInv_releaseTxn s caller tid h
  | refundTxn caller tid => exact bidInv_refundTxn s caller tid h
  | createReview caller pid revieweeId rating =>
      exact bidInv_createReview s caller pid revieweeId rating h
  | updateReview caller reviewId rating? =>
      exact bidInv_updateReview s caller reviewId rating? h

/-- The bid invariant holds in every state reachable through status-free
operations. -/
theorem bidInv_runOps (ops : List Op) (hops : ∀ op ∈ ops, op.statusFree) :
    BidInv (runOps ops) := by
  have key : ∀ (l : List Op) (s : Store), (∀ op ∈ l, op.statusFree) →
      BidInv s → BidInv (l.foldl (fun s op => op.apply s) s) := by
    intro l
    induction l with
    | nil => exact fun s _ hs => hs
    | cons op t ih =>
      intro s hl hs
      exact ih _ (fun o ho => hl o (List.mem_cons_of_mem _ ho))
        (bidInv_step s op (hl op (List.mem_cons_self _ _)) hs)
  exact key ops Store.empty hops bidInv_empty

/-- **C2 (amended)** — In every state reachable from the empty store by
operation sequences in which `PUT /projects/:id` never writes the
`status` field, every project carries at most one `ACCEPTED` bid.  (The
unrestricted claim is false: `two_accepted_bids_reachable` exhibits a
trace whose status-resetting update lets a second bid be accepted.) -/
theorem accepted_bid_unique (s : Store)
    (h : ReachableVia Op.statusFree s) (pid : Nat) :
    acceptedBidCount s pid ≤ 1 := by
  obtain ⟨ops, hops, rfl⟩ := h
  exact (bidInv_runOps ops hops).accepted_le_one pid

/-- Witness for C2 (amended): the scenario trace up to the bid
acceptance is status-free, and project 3 then carries one accepted
bid. -/
theorem accepted_bid_unique_witness :
    acceptedBidCount (runOps (demoOps ++ [.acceptBid 0 4])) 3 ≤ 1 :=
  accepted_bid_unique (runOps (demoOps ++ [.acceptBid 0 4]))
    ⟨demoOps ++ [.acceptBid 0 4], by
      intro op hop
      simp [demoOps] at hop
      rcases hop with rfl | rfl | rfl | rfl | rfl | rfl | rfl <;> trivial,
      rfl⟩ 3

/-! ### Result-shape lemmas for the escrow invariant (claim C9) -/

/-- `projStatus` only looks at the project table. -/
theorem projStatus_congr (s s' : Store) (pid : Nat)
    (h : s'.projects = s.projects) : s'.projStatus pid = s.projStatus pid := by
  unfold Store.projStatus Store.findProject
  rw [h]

/-- Registration leaves projects, transactions and (up to allocation)
the id counter alone. -/
theorem registerUser_tables (s : Store) (email : String) (role : Role)
    (langs : List String) :
    (registerUser s email role langs).1.projects = s.projects ∧
    (registerUser s email role langs).1.txns = s.txns ∧
    s.nextId ≤ (registerUser s email role langs).1.nextId := by
  unfold registerUser
  split
  · exact ⟨rfl, rfl, le_rfl⟩
  · exact ⟨rfl, rfl, Nat.le_succ _⟩

/-- Bid submission leaves projects and transactions alone. -/
theorem submitBid_tables (s : Store) (caller pid : Nat) (amount : ℚ) :
    (submitBid s caller pid amount).1.projects = s.projects ∧
    (submitBid s caller pid amount).1.txns = s.txns ∧
    s.nextId ≤ (submitBid s caller pid amount).1.nextId := by
  unfold submitBid
  cases s.findProject pid with
  | none => exact ⟨rfl, rfl, le_rfl⟩
  | some p =>
    dsimp only
    split
    · exact ⟨rfl, rfl, le_rfl⟩
    · split
      · exact ⟨rfl, rfl, le_rfl⟩
      · split
        · exact ⟨rfl, rfl, le_rfl⟩
        · exact ⟨rfl, rfl, Nat.le_succ _⟩

/-- Bid rejection leaves projects and transactions alone. -/
theorem rejectBid_tables (s : Store) (caller bidId : Nat) :
    (rejectBid s caller bidId).1.projects = s.projects ∧
    (rejectBid s caller bidId).1.txns = s.txns ∧
    s.nextId ≤ (rejectBid s caller bidId).1.nextId := by
  unfold rejectBid
  cases s.findBid bidId with
  | none => exact ⟨rfl, rfl, le_rfl⟩
  | some b =>
    dsimp only
    cases s.findProject b.projectId with
    | none => exact ⟨rfl, rfl, le_rfl⟩
    | some p =>
      dsimp only
      split
      · exact ⟨rfl, rfl, le_rfl⟩
      · split
        · exact ⟨rfl, rfl, le_rfl⟩
        · exact ⟨rfl, rfl, le_rfl⟩

/-- Review creation leaves projects and transactions alone. -/
theorem createReview_tables (s : Store) (caller pid revieweeId rating : Nat) :
    (createReview s caller pid revieweeId rating).1.projects = s.projects ∧
    (createReview s caller pid revieweeId rating).1.txns = s.txns ∧
    s.nextId ≤ (createReview s caller pid revieweeId rating).1.nextId := by
  rcases createReview_cases s caller pid revieweeId rating with ⟨e, he⟩ | he
  · rw [he]
    exact ⟨rfl, rfl, le_rfl⟩
  · rw [he]
    obtain ⟨-, hp, ht, -, hn⟩ := recomputeRating_tables _ revieweeId
    exact ⟨by rw [hp], by rw [ht], by rw [hn]; exact Nat.le_succ _⟩

/-- Review update leaves projects and transactions alone. -/
theorem updateReview_tables (s : Store) (caller reviewId : Nat)
    (rating? : Option Nat) :
    (updateReview s caller reviewId rating?).1.projects = s.projects ∧
    (updateReview s caller reviewId rating?).1.txns = s.txns ∧
    s.nextId ≤ (updateReview s caller reviewId rating?).1.nextId := by
  unfold updateReview
  cases s.findReview reviewId with
  | none => exact ⟨rfl, rfl, le_rfl⟩
  | some r =>
    dsimp only
    split
    · exact ⟨rfl, rfl, le_rfl⟩
    · cases rating? with
      | none => exact ⟨rfl, rfl, le_rfl⟩
      | some newRating =>
        obtain ⟨-, hp, ht, -, hn⟩ := recomputeRating_tables
          ({ s with reviews := s.reviews.map (setReviewRating reviewId newRating) })
          r.revieweeId
        exact ⟨by rw [hp], by rw [ht], by rw [hn]⟩

/-- Either bid acceptance fails with the store unchanged, or its four
guarded writes happen. -/
theorem acceptBid_cases (s : Store) (caller bidId : Nat) :
    (acceptBid s caller bidId).1 = s ∨
    ∃ b p, s.findBid bidId = some b ∧
      s.findProject b.projectId = some p ∧ p.clientId = caller ∧
      p.status = .POSTED ∧
      (acceptBid s caller bidId).1 =
        { s with
            nextId := s.nextId + 1
            bids := s.bids.map (acceptBidWrite bidId b.projectId)
            projects := s.projects.map
              (setProjectStatus b.projectId .IN_PROGRESS)
            txns := s.txns ++ [⟨s.nextId, b.projectId, p.clientId,
              b.freelancerId, b.bidAmount, .PENDING⟩] } := by
  unfold acceptBid
  cases hfb : s.findBid bidId with
  | none => exact Or.inl rfl
  | some b =>
    dsimp only
    cases hfp : s.findProject b.projectId with
    | none => exact Or.inl rfl
    | some p =>
      dsimp only
      by_cases hcl : p.clientId ≠ caller
      · rw [if_pos hcl]
        exact Or.inl rfl
      · rw [if_neg hcl]
        by_cases hps : p.status ≠ ProjectStatus.POSTED
        · rw [if_pos hps]
          exact Or.inl rfl
        · rw [if_neg hps]
          exact Or.inr ⟨b, p, rfl, hfp, not_not.1 hcl, not_not.1 hps, rfl⟩

/-- Either the project update fails with the store unchanged, or the
owner's field edits are applied. -/
theorem updateProject_cases (s : Store) (caller pid : Nat)
    (budget? : Option ℚ) (status? : Option ProjectStatus) :
    (updateProject s caller pid budget? status?).1 = s ∨
    (updateProject s caller pid budget? status?).1 =
      { s with projects := s.projects.map (editProject pid budget? status?) } := by
  unfold updateProject
  cases s.findProject pid with
  | none => exact Or.inl rfl
  | some p =>
    dsimp only
    split
    · exact Or.inl rfl
    · exact Or.inr rfl

/-- Either release fails with the store unchanged, or its guards hold
and the transaction write — and, when the project row exists, the
project write — take effect. -/
theorem releaseTxn_cases (s : Store) (caller tid : Nat) :
    (releaseTxn s caller tid).1 = s ∨
    ∃ t, s.findTxn tid = some t ∧ t.clientId = caller ∧
      t.status = .PENDING ∧
      ((releaseTxn s caller tid).1 =
          { s with txns := s.txns.map (setTxnStatus tid .RELEASED) } ∨
        (releaseTxn s caller tid).1 =
          { s with
              projects := s.projects.map
                (setProjectStatus t.projectId .PAID)
              txns := s.txns.map (setTxnStatus tid .RELEASED) }) := by
  unfold releaseTxn
  cases hft : s.findTxn tid with
  | none => exact Or.inl rfl
  | some t =>
    dsimp only
    by_cases hcl : t.clientId ≠ caller
    · rw [if_pos hcl]
      exact Or.inl rfl
    · rw [if_neg hcl]
      by_cases hts : t.status ≠ TxStatus.PENDING
      · rw [if_pos hts]
        exact Or.inl rfl
      · rw [if_neg hts]
        refine Or.inr ⟨t, rfl, not_not.1 hcl, not_not.1 hts, ?_⟩
        split
        · exact Or.inr rfl
        · exact Or.inl rfl

/-- Either refund fails with the store unchanged, or its guards hold
and the transaction write — and, when the project row exists, the
project write — take effect. -/
theorem refundTxn_cases (s : Store) (caller tid : Nat) :
    (refundTxn s caller tid).1 = s ∨
    ∃ t, s.findTxn tid = some t ∧ t.clientId = caller ∧
      t.status = .PENDING ∧
      ((refundTxn s caller tid).1 =
          { s with txns := s.txns.map (setTxnStatus tid .REFUNDED) } ∨
        (refundTxn s caller tid).1 =
          { s with
              projects := s.projects.map
                (setProjectStatus t.projectId .CANCELLED)
              txns := s.txns.map (setTxnStatus tid .REFUNDED) }) := by
  unfold refundTxn
  cases hft : s.findTxn tid with
  | none => exact Or.inl rfl
  | some t =>
    dsimp only
    by_cases hcl : t.clientId ≠ caller
    · rw [if_pos hcl]
      exact Or.inl rfl
    · rw [if_neg hcl]
      by_cases hts : t.status ≠ TxStatus.PENDING
      · rw [if_pos hts]
        exact Or.inl rfl
      · rw [if_neg hts]
        refine Or.inr ⟨t, rfl, not_not.1 hcl, not_not.1 hts, ?_⟩
        split
        · exact Or.inr rfl
        · exact Or.inl rfl

/-! ### The escrow invariant (claim C9) -/

/-- Bookkeeping invariant maintained by every lifecycle-only operation:
transaction ids are distinct and below the counter, each project id has
at most one transaction — none while `POSTED` — and a `PENDING`
transaction's project is `IN_PROGRESS`. -/
structure EscrowInv (s : Store) : Prop where
  txn_ids_nodup : (s.txns.map (·.id)).Nodup
  txn_id_lt : ∀ t ∈ s.txns, t.id < s.nextId
  txn_proj_lt : ∀ t ∈ s.txns, t.projectId < s.nextId
  txn_per_project : ∀ pid, txnCountOn s pid ≤ 1
  posted_no_txn : ∀ pid, s.projStatus pid = some .POSTED →
    txnCountOn s pid = 0
  pending_in_progress : ∀ t ∈ s.txns, t.status = .PENDING →
    s.projStatus t.projectId = some .IN_PROGRESS

/-- The empty database satisfies the escrow invariant. -/
theorem escrowInv_empty : EscrowInv Store.empty := by
  refine ⟨List.nodup_nil, ?_, ?_, ?_, ?_, ?_⟩
  · intro t ht
    simp [Store.empty] at ht
  · intro t ht
    simp [Store.empty] at ht
  · intro pid
    simp [txnCountOn, Store.empty]
  · intro pid hpid
    simp [txnCountOn, Store.empty]
  · intro t ht
    simp [Store.empty] at ht

/-- The escrow invariant transfers along equal transaction and project
tables and a non-decreasing counter. -/
theorem EscrowInv.ofEqEscrow (s s' : Store) (h : EscrowInv s)
    (ht : s'.txns = s.txns) (hp : s'.projects = s.projects)
    (hn : s.nextId ≤ s'.nextId) : EscrowInv s' := by
  constructor
  · rw [ht]
    exact h.txn_ids_nodup
  · intro t htm
    rw [ht] at htm
    exact lt_of_lt_of_le (h.txn_id_lt t htm) hn
  · intro t htm
    rw [ht] at htm
    exact lt_of_lt_of_le (h.txn_proj_lt t htm) hn
  · intro pid
    show s'.txns.countP _ ≤ 1
    rw [ht]
    exact h.txn_per_project pid
  · intro pid hpost
    rw [projStatus_congr s s' pid hp] at hpost
    show s'.txns.countP _ = 0
    rw [ht]
    exact h.posted_no_txn pid hpost
  · intro t htm hpend
    rw [ht] at htm
    rw [projStatus_congr s s' t.projectId hp]
    exact h.pending_in_progress t htm hpend

/-- The escrow invariant is preserved by a status-preserving,
id-preserving rewrite of the project table. -/
theorem EscrowInv.project_map_status (s : Store) (g : Project → Project)
    (hid : ∀ q, (g q).id = q.id)
    (hstat : ∀ q, (g q).status = q.status)
    (h : EscrowInv s) : EscrowInv { s with projects := s.projects.map g } := by
  have hps : ∀ pid, Store.projStatus
      { s with projects := s.projects.map g } pid = s.projStatus pid := by
    intro pid
    unfold Store.projStatus Store.findProject
    show ((s.projects.map g).find? _).map _ = _
    rw [find?_map_congr _ _ _ (fun q => by
      show decide ((g q).id = pid) = decide (q.id = pid)
      rw [hid])]
    cases s.projects.find? (fun q => decide (q.id = pid)) with
    | none => rfl
    | some q0 => simp [hstat]
  constructor
  · exact h.txn_ids_nodup
  · exact h.txn_id_lt
  · exact h.txn_proj_lt
  · exact h.txn_per_project
  · intro pid hpost
    rw [hps pid] at hpost
    exact h.posted_no_txn pid hpost
  · intro t htm hpend
    rw [hps t.projectId]
    exact h.pending_in_progress t htm hpend

/-- Project creation preserves the escrow invariant. -/
theorem escrowInv_createProject (s : Store) (caller : Nat) (budget : ℚ)
    (h : EscrowInv s) : EscrowInv (createProject s caller budget).1 := by
  unfold createProject
  constructor
  · exact h.txn_ids_nodup
  · intro t htm
    exact lt_of_lt_of_le (h.txn_id_lt t htm) (Nat.le_succ _)
  · intro t htm
    exact lt_of_lt_of_le (h.txn_proj_lt t htm) (Nat.le_succ _)
  · exact h.txn_per_project
  · intro pid hpost
    unfold Store.projStatus Store.findProject at hpost
    rw [List.find?_append] at hpost
    cases hfp : s.projects.find? (fun p => decide (p.id = pid)) with
    | some q0 =>
      rw [hfp] at hpost
      simp only [Option.or_some] at hpost
      show s.txns.countP _ = 0
      exact h.posted_no_txn pid (by
        unfold Store.projStatus Store.findProject
        rw [hfp]
        exact hpost)
    | none =>
      by_cases hpid : s.nextId = pid
      · show s.txns.countP _ = 0
        rw [List.countP_eq_zero]
        intro t htm
        have hlt := h.txn_proj_lt t htm
        simp only [decide_eq_true_eq]
        omega
      · rw [hfp] at hpost
        simp [List.find?_cons, hpid] at hpost
  · intro t htm hpend
    have hpre := h.pending_in_progress t htm hpend
    unfold Store.projStatus Store.findProject at hpre ⊢
    rw [List.find?_append]
    cases hfp : s.projects.find? (fun p => decide (p.id = t.projectId)) with
    | none =>
      rw [hfp] at hpre
      simp at hpre
    | some q0 =>
      rw [hfp] at hpre
      simpa using hpre

/-- Settling a `PENDING` transaction — with or without the accompanying
project write — preserves the escrow invariant, for any non-`PENDING`
target transaction status and non-`POSTED` target project status. -/
theorem escrowInv_settle (s : Store) (tid : Nat) (t : Txn)
    (hft : s.findTxn tid = some t) (hpend : t.status = .PENDING)
    (stT : TxStatus) (stP : ProjectStatus) (hstT : stT ≠ .PENDING)
    (hstP : stP ≠ .POSTED) (h : EscrowInv s) :
    EscrowInv { s with txns := s.txns.map (setTxnStatus tid stT) } ∧
    EscrowInv { s with
      projects := s.projects.map (setProjectStatus t.projectId stP)
      txns := s.txns.map (setTxnStatus tid stT) } := by
  have hmem : t ∈ s.txns := by
    have h' := hft
    unfold Store.findTxn at h'
    exact List.mem_of_find?_eq_some h'
  have htid : t.id = tid := by
    have h' := hft
    unfold Store.findTxn at h'
    have h2 := List.find?_some h'
    simpa using h2
  have hxid : ∀ x ∈ s.txns, x.id = tid → x = t := by
    intro x hx hxe
    exact List.inj_on_of_nodup_map h.txn_ids_nodup hx hmem
      (by rw [hxe, htid])
  have hnodup : ((s.txns.map (setTxnStatus tid stT)).map
      (fun x : Txn => x.id)).Nodup := by
    rw [List.map_map]
    have heq : ((fun x : Txn => x.id) ∘ setTxnStatus tid stT) =
        (fun x : Txn => x.id) := funext fun x => setTxnStatus_id _ _ x
    rw [heq]
    exact h.txn_ids_nodup
  have hidlt : ∀ x ∈ s.txns.map (setTxnStatus tid stT), x.id < s.nextId := by
    intro x hx
    rw [List.mem_map] at hx
    obtain ⟨x0, hx0, rfl⟩ := hx
    rw [setTxnStatus_id]
    exact h.txn_id_lt x0 hx0
  have hprojlt : ∀ x ∈ s.txns.map (setTxnStatus tid stT),
      x.projectId < s.nextId := by
    intro x hx
    rw [List.mem_map] at hx
    obtain ⟨x0, hx0, rfl⟩ := hx
    rw [setTxnStatus_projectId]
    exact h.txn_proj_lt x0 hx0
  have hcount : ∀ pid, (s.txns.map (setTxnStatus tid stT)).countP
      (fun x => decide (x.projectId = pid)) =
      s.txns.countP (fun x => decide (x.projectId = pid)) := by
    intro pid
    apply countP_map_eq
    intro x hx
    show decide ((setTxnStatus tid stT x).projectId = pid) =
      decide (x.projectId = pid)
    rw [setTxnStatus_projectId]
  have hpend_sub : ∀ x ∈ s.txns.map (setTxnStatus tid stT),
      x.status = TxStatus.PENDING →
      ∃ x0 ∈ s.txns, x0.id ≠ tid ∧ x = x0 ∧ x0.status = .PENDING := by
    intro x hx hxp
    rw [List.mem_map] at hx
    obtain ⟨x0, hx0, rfl⟩ := hx
    by_cases e1 : x0.id = tid
    · exfalso
      unfold setTxnStatus at hxp
      rw [if_pos e1] at hxp
      exact hstT hxp
    · refine ⟨x0, hx0, e1, ?_, ?_⟩
      · unfold setTxnStatus
        rw [if_neg e1]
      · unfold setTxnStatus at hxp
        rwa [if_neg e1] at hxp
  have hother_proj : ∀ x0 ∈ s.txns, x0.id ≠ tid →
      x0.projectId ≠ t.projectId := by
    intro x0 hx0 hne heq
    have hxt : x0 ≠ t := fun hh => hne (hh ▸ htid)
    have h2 := two_le_countP s.txns
      (fun x => decide (x.projectId = t.projectId)) x0 t hx0 hmem hxt
      (by simpa using heq) (by simp)
    have h1 := h.txn_per_project t.projectId
    unfold txnCountOn at h1
    omega
  constructor
  · constructor
    · exact hnodup
    · exact hidlt
    · exact hprojlt
    · intro pid
      show (s.txns.map _).countP _ ≤ 1
      rw [hcount pid]
      exact h.txn_per_project pid
    · intro pid hpost
      have hpost' : s.projStatus pid = some .POSTED := by
        rw [← projStatus_congr s _ pid rfl]
        exact hpost
      show (s.txns.map _).countP _ = 0
      rw [hcount pid]
      exact h.posted_no_txn pid hpost'
    · intro x hx hxp
      obtain ⟨x0, hx0, -, hxeq, hx0p⟩ := hpend_sub x hx hxp
      rw [projStatus_congr s
        { s with txns := s.txns.map (setTxnStatus tid stT) }
        x.projectId rfl, hxeq]
      exact h.pending_in_progress x0 hx0 hx0p
  · have hps : ∀ pid, Store.projStatus { s with
        projects := s.projects.map (setProjectStatus t.projectId stP)
        txns := s.txns.map (setTxnStatus tid stT) } pid =
        (s.projects.find? (fun q => decide (q.id = pid))).map
          (fun q => (setProjectStatus t.projectId stP q).status) := by
      intro pid
      unfold Store.projStatus Store.findProject
      show ((s.projects.map _).find? _).map _ = _
      rw [find?_map_congr _ _ _ (fun q => by
        show decide ((setProjectStatus t.projectId stP q).id = pid) =
          decide (q.id = pid)
        rw [setProjectStatus_id])]
      cases s.projects.find? (fun q => decide (q.id = pid)) with
      | none => rfl
      | some q0 => rfl
    constructor
    · exact hnodup
    · exact hidlt
    · exact hprojlt
    · intro pid
      show (s.txns.map _).countP _ ≤ 1
      rw [hcount pid]
      exact h.txn_per_project pid
    · intro pid hpost
      rw [hps pid] at hpost
      cases hfp : s.projects.find? (fun q => decide (q.id = pid)) with
      | none =>
        rw [hfp] at hpost
        simp at hpost
      | some q0 =>
        rw [hfp] at hpost
        have hq0st : (setProjectStatus t.projectId stP q0).status =
            .POSTED := by
          simpa using hpost
        have hq0 : q0.status = .POSTED := by
          unfold setProjectStatus at hq0st
          split at hq0st
          · exact absurd hq0st hstP
          · exact hq0st
        show (s.txns.map _).countP _ = 0
        rw [hcount pid]
        exact h.posted_no_txn pid (by
          unfold Store.projStatus Store.findProject
          rw [hfp]
          simp [hq0])
    · intro x hx hxp
      obtain ⟨x0, hx0, hxne, hxeq, hx0p⟩ := hpend_sub x hx hxp
      have hpre := h.pending_in_progress x0 hx0 hx0p
      have hpne : x0.projectId ≠ t.projectId := hother_proj x0 hx0 hxne
      rw [hxeq, hps x0.projectId]
      unfold Store.projStatus Store.findProject at hpre
      cases hfp : s.projects.find? (fun q =>
          decide (q.id = x0.projectId)) with
      | none =>
        rw [hfp] at hpre
        simp at hpre
      | some q0 =>
        rw [hfp] at hpre
        have hq0id : q0.id = x0.projectId := by
          have h2 := List.find?_some hfp
          simpa using h2
        have hq0ne : q0.id ≠ t.projectId := hq0id ▸ hpne
        have : (setProjectStatus t.projectId stP q0).status = q0.status := by
          unfold setProjectStatus
          rw [if_neg hq0ne]
        simpa [this] using hpre

/-- Bid acceptance preserves the escrow invariant: the project was
`POSTED`, so it had no transaction, and the one created `PENDING`
transaction points at the project that simultaneously becomes
`IN_PROGRESS`. -/
theorem escrowInv_acceptBid (s : Store) (caller bidId : Nat)
    (hB : BidInv s) (h : EscrowInv s) :
    EscrowInv (acceptBid s caller bidId).1 := by
  rcases acceptBid_cases s caller bidId with he | ⟨b, p, hfb, hfp, hcl, hst, he⟩
  · rw [he]
    exact h
  · rw [he]
    have hbmem : b ∈ s.bids := by
      have h' := hfb
      unfold Store.findBid at h'
      exact List.mem_of_find?_eq_some h'
    have hbproj : b.projectId < s.nextId := hB.bid_proj_lt b hbmem
    have hppid : p.id = b.projectId := by
      have h' := hfp
      unfold Store.findProject at h'
      have h2 := List.find?_some h'
      simpa using h2
    have hpreposted : s.projStatus b.projectId = some .POSTED := by
      unfold Store.projStatus
      rw [hfp]
      simp [hst]
    have hzero : txnCountOn s b.projectId = 0 :=
      h.posted_no_txn b.projectId hpreposted
    constructor
    · show ((s.txns ++ [(⟨s.nextId, b.projectId, p.clientId,
          b.freelancerId, b.bidAmount, TxStatus.PENDING⟩ : Txn)]).map
            (fun x : Txn => x.id)).Nodup
      rw [List.map_append, List.nodup_append]
      refine ⟨h.txn_ids_nodup, List.nodup_singleton _, ?_⟩
      intro a ha hamem
      simp only [List.map_cons, List.map_nil, List.mem_singleton] at hamem
      subst hamem
      rw [List.mem_map] at ha
      obtain ⟨t0, ht0, ht0id⟩ := ha
      exact absurd ht0id (Nat.ne_of_lt (h.txn_id_lt t0 ht0))
    · intro x hx
      rw [List.mem_append] at hx
      rcases hx with hx | hx
      · exact lt_of_lt_of_le (h.txn_id_lt x hx) (Nat.le_succ _)
      · simp only [List.mem_singleton] at hx
        subst hx
        exact Nat.lt_succ_self _
    · intro x hx
      rw [List.mem_append] at hx
      rcases hx with hx | hx
      · exact lt_of_lt_of_le (h.txn_proj_lt x hx) (Nat.le_succ _)
      · simp only [List.mem_singleton] at hx
        subst hx
        show b.projectId < s.nextId + 1
        omega
    · intro pid'
      show (s.txns ++ [(⟨s.nextId, b.projectId, p.clientId,
          b.freelancerId, b.bidAmount, TxStatus.PENDING⟩ : Txn)]).countP
            (fun x => decide (x.projectId = pid')) ≤ 1
      rw [List.countP_append]
      by_cases hpp : pid' = b.projectId
      · subst hpp
        have hz : s.txns.countP (fun x =>
            decide (x.projectId = b.projectId)) = 0 := hzero
        rw [hz]
        have hone : ([(⟨s.nextId, b.projectId, p.clientId, b.freelancerId,
            b.bidAmount, TxStatus.PENDING⟩ : Txn)].countP
              (fun x => decide (x.projectId = b.projectId))) = 1 := by
          simp
        rw [hone]
      · have hone : ([(⟨s.nextId, b.projectId, p.clientId,
            b.freelancerId, b.bidAmount, TxStatus.PENDING⟩ : Txn)].countP
              (fun x => decide (x.projectId = pid'))) = 0 := by
          simp
          exact fun hh => hpp hh.symm
        rw [hone]
        simpa [txnCountOn] using h.txn_per_project pid'
    · intro pid' hpost
      unfold Store.projStatus Store.findProject at hpost
      rw [find?_map_congr _ _ _ (fun q => by
        show decide ((setProjectStatus b.projectId
          ProjectStatus.IN_PROGRESS q).id = pid') = decide (q.id = pid')
        rw [setProjectStatus_id])] at hpost
      cases hfp' : s.projects.find? (fun q => decide (q.id = pid')) with
      | none =>
        rw [hfp'] at hpost
        simp at hpost
      | some q0 =>
        rw [hfp'] at hpost
        have hq0st : (setProjectStatus b.projectId
            ProjectStatus.IN_PROGRESS q0).status = .POSTED := by
          simpa using hpost
        have hq0ne : q0.id ≠ b.projectId := by
          intro heq
          unfold setProjectStatus at hq0st
          rw [if_pos heq] at hq0st
          exact absurd hq0st (by simp)
        have hq0post : q0.status = .POSTED := by
          unfold setProjectStatus at hq0st
          rwa [if_neg hq0ne] at hq0st
        have hq0id : q0.id = pid' := by
          have h2 := List.find?_some hfp'
          simpa using h2
        have hppne : pid' ≠ b.projectId := hq0id ▸ hq0ne
        show (s.txns ++ [(⟨s.nextId, b.projectId, p.clientId,
            b.freelancerId, b.bidAmount, TxStatus.PENDING⟩ : Txn)]).countP
              (fun x => decide (x.projectId = pid')) = 0
        rw [List.countP_append]
        have hone : ([(⟨s.nextId, b.projectId, p.clientId,
            b.freelancerId, b.bidAmount, TxStatus.PENDING⟩ : Txn)].countP
              (fun x => decide (x.projectId = pid'))) = 0 := by
          simp
          exact fun hh => hppne hh.symm
        have hprezero : s.txns.countP
            (fun x => decide (x.projectId = pid')) = 0 :=
          h.posted_no_txn pid' (by
            unfold Store.projStatus Store.findProject
            rw [hfp']
            simp [hq0post])
        rw [hone, hprezero]
    · intro x hx hxp
      rw [List.mem_append] at hx
      have hfindmap : ∀ pid', Store.findProject
          { s with
              nextId := s.nextId + 1
              bids := s.bids.map (acceptBidWrite bidId b.projectId)
              projects := s.projects.map
                (setProjectStatus b.projectId .IN_PROGRESS)
              txns := s.txns ++ [⟨s.nextId, b.projectId, p.clientId,
                b.freelancerId, b.bidAmount, .PENDING⟩] } pid' =
          (s.findProject pid').map
            (setProjectStatus b.projectId .IN_PROGRESS) := by
        intro pid'
        unfold Store.findProject
        show (s.projects.map _).find? _ = _
        exact find?_map_congr _ _ _ (fun q => by
          show decide ((setProjectStatus b.projectId
            ProjectStatus.IN_PROGRESS q).id = pid') = decide (q.id = pid')
          rw [setProjectStatus_id])
      rcases hx with hx | hx
      · have hpre := h.pending_in_progress x hx hxp
        unfold Store.projStatus at hpre ⊢
        rw [hfindmap x.projectId]
        unfold Store.findProject at hpre
        cases hfp' : s.projects.find? (fun q =>
            decide (q.id = x.projectId)) with
        | none =>
          rw [hfp'] at hpre
          simp at hpre
        | some q0 =>
          rw [hfp'] at hpre
          have hq0 : q0.status = .IN_PROGRESS := by
            simpa using hpre
          rw [show s.findProject x.projectId = some q0 from by
            unfold Store.findProject
            exact hfp']
          show some ((setProjectStatus b.projectId
            ProjectStatus.IN_PROGRESS q0).status) = _
          unfold setProjectStatus
          split
          · rfl
          · rw [hq0]
      · simp only [List.mem_singleton] at hx
        subst hx
        show Store.projStatus _ b.projectId = _
        unfold Store.projStatus
        rw [hfindmap b.projectId]
        rw [show s.findProject b.projectId = some p from hfp]
        show some ((setProjectStatus b.projectId
          ProjectStatus.IN_PROGRESS p).status) = _
        unfold setProjectStatus
        rw [if_pos hppid]

/-- Lifecycle-only operations write no project status through the
generic update, so they are in particular status-free. -/
theorem Op.statusFree_of_lifecycleOnly (op : Op) (h : op.lifecycleOnly) :
    op.statusFree := by
  cases op <;> first | trivial | exact h | exact h.elim

/-- Every lifecycle-only operation preserves the escrow invariant. -/
theorem escrowInv_step (s : Store) (op : Op) (hop : op.lifecycleOnly)
    (hB : BidInv s) (h : EscrowInv s) : EscrowInv (op.apply s) := by
  cases op with
  | register email role langs =>
      obtain ⟨hp, ht, hn⟩ := registerUser_tables s email role langs
      exact EscrowInv.ofEqEscrow s _ h ht hp hn
  | createProject caller budget =>
      exact escrowInv_createProject s caller budget h
  | submitBid caller pid amount =>
      obtain ⟨hp, ht, hn⟩ := submitBid_tables s caller pid amount
      exact EscrowInv.ofEqEscrow s _ h ht hp hn
  | acceptBid caller bidId => exact escrowInv_acceptBid s caller bidId hB h
  | rejectBid caller bidId =>
      obtain ⟨hp, ht, hn⟩ := rejectBid_tables s caller bidId
      exact EscrowInv.ofEqEscrow s _ h ht hp hn
  | updateProject caller pid budget? status? =>
      have hnone : status? = none := hop
      subst hnone
      show EscrowInv (updateProject s caller pid budget? none).1
      rcases updateProject_cases s caller pid budget? none with he | he
      · rw [he]
        exact h
      · rw [he]
        exact EscrowInv.project_map_status s _ (editProject_id pid budget? none)
          (editProject_status_none pid budget?) h
  | confirmPayment caller pid freelancerId amount succeeded => exact hop.elim
  | releaseTxn caller tid =>
      show EscrowInv (releaseTxn s caller tid).1
      rcases releaseTxn_cases s caller tid with he | ⟨t, hft, -, hpend, he⟩
      · rw [he]
        exact h
      · obtain ⟨hA, hAB⟩ := escrowInv_settle s tid t hft hpend .RELEASED
          .PAID (by simp) (by simp) h
        rcases he with he | he
        · rw [he]
          exact hA
        · rw [he]
          exact hAB
  | refundTxn caller tid =>
      show EscrowInv (refundTxn s caller tid).1
      rcases refundTxn_cases s caller tid with he | ⟨t, hft, -, hpend, he⟩
      · rw [he]
        exact h
      · obtain ⟨hA, hAB⟩ := escrowInv_settle s tid t hft hpend .REFUNDED
          .CANCELLED (by simp) (by simp) h
        rcases he with he | he
        · rw [he]
          exact hA
        · rw [he]
          exact hAB
  | createReview caller pid revieweeId rating =>
      obtain ⟨hp, ht, hn⟩ := createReview_tables s caller pid revieweeId rating
      exact EscrowInv.ofEqEscrow s _ h ht hp hn
  | updateReview caller reviewId rating? =>
      obtain ⟨hp, ht, hn⟩ := updateReview_tables s caller reviewId rating?
      exact EscrowInv.ofEqEscrow s _ h ht hp hn

/-- Both invariants hold in every state reached by a lifecycle-only
trace. -/
theorem invariants_runOps (ops : List Op)
    (hops : ∀ op ∈ ops, op.lifecycleOnly) :
    BidInv (runOps ops) ∧ EscrowInv (runOps ops) := by
  have key : ∀ (l : List Op) (s : Store), (∀ op ∈ l, op.lifecycleOnly) →
      BidInv s ∧ EscrowInv s →
      BidInv (l.foldl (fun s op => op.apply s) s) ∧
        EscrowInv (l.foldl (fun s op => op.apply s) s) := by
    intro l
    induction l with
    | nil => exact fun s _ hs => hs
    | cons op t ih =>
      intro s hl hs
      have hop := hl op (List.mem_cons_self _ _)
      exact ih _ (fun o ho => hl o (List.mem_cons_of_mem _ ho))
        ⟨bidInv_step s op (op.statusFree_of_lifecycleOnly hop) hs.1,
          escrowInv_step s op hop hs.1 hs.2⟩
  exact key ops Store.empty hops ⟨bidInv_empty, escrowInv_empty⟩

/-- One lifecycle-only operation moves a project's status only in ways
the one-directional discipline allows, given the two invariants. -/
theorem project_status_step (s : Store) (op : Op) (hop : op.lifecycleOnly)
    (hE : EscrowInv s) (pid : Nat) (st st' : ProjectStatus)
    (hpre : s.projStatus pid = some st)
    (hpost : (op.apply s).projStatus pid = some st') :
    StepOk st st' := by
  cases op with
  | register email role langs =>
      simp only [Op.apply] at hpost
      obtain ⟨hp, -, -⟩ := registerUser_tables s email role langs
      rw [projStatus_congr s _ pid hp, hpre] at hpost
      exact Or.inl (Option.some_injective _ hpost)
  | submitBid caller pid2 amount =>
      simp only [Op.apply] at hpost
      obtain ⟨hp, -, -⟩ := submitBid_tables s caller pid2 amount
      rw [projStatus_congr s _ pid hp, hpre] at hpost
      exact Or.inl (Option.some_injective _ hpost)
  | rejectBid caller bidId =>
      simp only [Op.apply] at hpost
      obtain ⟨hp, -, -⟩ := rejectBid_tables s caller bidId
      rw [projStatus_congr s _ pid hp, hpre] at hpost
      exact Or.inl (Option.some_injective _ hpost)
  | confirmPayment caller pid2 freelancerId amount succeeded =>
      exact hop.elim
  | createReview caller pid2 revieweeId rating =>
      simp only [Op.apply] at hpost
      obtain ⟨hp, -, -⟩ := createReview_tables s caller pid2 revieweeId rating
      rw [projStatus_congr s _ pid hp, hpre] at hpost
      exact Or.inl (Option.some_injective _ hpost)
  | updateReview caller reviewId rating? =>
      simp only [Op.apply] at hpost
      obtain ⟨hp, -, -⟩ := updateReview_tables s caller reviewId rating?
      rw [projStatus_congr s _ pid hp, hpre] at hpost
      exact Or.inl (Option.some_injective _ hpost)
  | createProject caller budget =>
      simp only [Op.apply, createProject] at hpost
      unfold Store.projStatus Store.findProject at hpre hpost
      rw [List.find?_append] at hpost
      cases hfp : s.projects.find? (fun q => decide (q.id = pid)) with
      | none =>
        rw [hfp] at hpre
        simp at hpre
      | some q0 =>
        rw [hfp] at hpre hpost
        simp only [Option.or_some] at hpost
        rw [hpre] at hpost
        exact Or.inl (Option.some_injective _ hpost)
  | updateProject caller pid2 budget? status? =>
      have hnone : status? = none := hop
      subst hnone
      simp only [Op.apply] at hpost
      rcases updateProject_cases s caller pid2 budget? none with he | he
      · rw [he, hpre] at hpost
        exact Or.inl (Option.some_injective _ hpost)
      · rw [he] at hpost
        have hps : Store.projStatus { s with
            projects := s.projects.map (editProject pid2 budget? none) }
            pid = s.projStatus pid := by
          unfold Store.projStatus Store.findProject
          show ((s.projects.map _).find? _).map _ = _
          rw [find?_map_congr _ _ _ (fun q => by
            show decide ((editProject pid2 budget? none q).id = pid) =
              decide (q.id = pid)
            rw [editProject_id])]
          cases s.projects.find? (fun q => decide (q.id = pid)) with
          | none => rfl
          | some q0 => simp [editProject_status_none]
        rw [hps, hpre] at hpost
        exact Or.inl (Option.some_injective _ hpost)
  | acceptBid caller bidId =>
      simp only [Op.apply] at hpost
      rcases acceptBid_cases s caller bidId with
        he | ⟨b, p, hfb, hfp, hcl, hst, he⟩
      · rw [he, hpre] at hpost
        exact Or.inl (Option.some_injective _ hpost)
      · rw [he] at hpost
        unfold Store.projStatus Store.findProject at hpre hpost
        rw [find?_map_congr _ _ _ (fun q => by
          show decide ((setProjectStatus b.projectId
            ProjectStatus.IN_PROGRESS q).id = pid) = decide (q.id = pid)
          rw [setProjectStatus_id])] at hpost
        cases hfp' : s.projects.find? (fun q => decide (q.id = pid)) with
        | none =>
          rw [hfp'] at hpre
          simp at hpre
        | some q0 =>
          rw [hfp'] at hpre hpost
          have hst0 : q0.status = st := by
            simpa using hpre
          have hst1 : (setProjectStatus b.projectId
              ProjectStatus.IN_PROGRESS q0).status = st' := by
            simpa using hpost
          by_cases hq : q0.id = b.projectId
          · have hq0id : q0.id = pid := by
              have h2 := List.find?_some hfp'
              simpa using h2
            have hpid_eq : pid = b.projectId := hq0id ▸ hq
            have hq0p : q0 = p := by
              have hfp2 := hfp
              unfold Store.findProject at hfp2
              rw [← hpid_eq, hfp'] at hfp2
              exact Option.some_injective _ hfp2
            have hstposted : st = ProjectStatus.POSTED := by
              rw [← hst0, hq0p, hst]
            have hstprog : st' = ProjectStatus.IN_PROGRESS := by
              rw [← hst1]
              unfold setProjectStatus
              rw [if_pos hq]
            subst hstposted
            subst hstprog
            exact Or.inr (Or.inl ⟨by simp, by simp, by decide⟩)
          · have hss : st' = st := by
              rw [← hst1, ← hst0]
              unfold setProjectStatus
              rw [if_neg hq]
            exact Or.inl hss.symm
  | releaseTxn caller tid =>
      simp only [Op.apply] at hpost
      rcases releaseTxn_cases s caller tid with he | ⟨t, hft, -, hpend, he⟩
      · rw [he, hpre] at hpost
        exact Or.inl (Option.some_injective _ hpost)
      · have htmem : t ∈ s.txns := by
          have h' := hft
          unfold Store.findTxn at h'
          exact List.mem_of_find?_eq_some h'
        have hprog := hE.pending_in_progress t htmem hpend
        rcases he with he | he
        · rw [he] at hpost
          rw [projStatus_congr s { s with
            txns := s.txns.map (setTxnStatus tid .RELEASED) } pid rfl,
            hpre] at hpost
          exact Or.inl (Option.some_injective _ hpost)
        · rw [he] at hpost
          unfold Store.projStatus Store.findProject at hpre hpost
          rw [find?_map_congr _ _ _ (fun q => by
            show decide ((setProjectStatus t.projectId
              ProjectStatus.PAID q).id = pid) = decide (q.id = pid)
            rw [setProjectStatus_id])] at hpost
          cases hfp' : s.projects.find? (fun q => decide (q.id = pid)) with
          | none =>
            rw [hfp'] at hpre
            simp at hpre
          | some q0 =>
            rw [hfp'] at hpre hpost
            have hst0 : q0.status = st := by
              simpa using hpre
            have hst1 : (setProjectStatus t.projectId
                ProjectStatus.PAID q0).status = st' := by
              simpa using hpost
            by_cases hq : q0.id = t.projectId
            · have hq0id : q0.id = pid := by
                have h2 := List.find?_some hfp'
                simpa using h2
              have hpid_eq : pid = t.projectId := hq0id ▸ hq
              have hpse : s.projStatus t.projectId = some st := by
                unfold Store.projStatus Store.findProject
                rw [← hpid_eq, hfp']
                simp [hst0]
              have hstprog : st = ProjectStatus.IN_PROGRESS := by
                rw [hpse] at hprog
                exact Option.some_injective _ hprog
              have hstp : st' = ProjectStatus.PAID := by
                rw [← hst1]
                unfold setProjectStatus
                rw [if_pos hq]
              subst hstprog
              subst hstp
              exact Or.inr (Or.inl ⟨by simp, by simp, by decide⟩)
            · have hss : st' = st := by
                rw [← hst1, ← hst0]
                unfold setProjectStatus
                rw [if_neg hq]
              exact Or.inl hss.symm
  | refundTxn caller tid =>
      simp only [Op.apply] at hpost
      rcases refundTxn_cases s caller tid with he | ⟨t, hft, -, hpend, he⟩
      · rw [he, hpre] at hpost
        exact Or.inl (Option.some_injective _ hpost)
      · have htmem : t ∈ s.txns := by
          have h' := hft
          unfold Store.findTxn at h'
          exact List.mem_of_find?_eq_some h'
        have hprog := hE.pending_in_progress t htmem hpend
        rcases he with he | he
        · rw [he] at hpost
          rw [projStatus_congr s { s with
            txns := s.txns.map (setTxnStatus tid .REFUNDED) } pid rfl,
            hpre] at hpost
          exact Or.inl (Option.some_injective _ hpost)
        · rw [he] at hpost
          unfold Store.projStatus Store.findProject at hpre hpost
          rw [find?_map_congr _ _ _ (fun q => by
            show decide ((setProjectStatus t.projectId
              ProjectStatus.CANCELLED q).id = pid) = decide (q.id = pid)
            rw [setProjectStatus_id])] at hpost
          cases hfp' : s.projects.find? (fun q => decide (q.id = pid)) with
          | none =>
            rw [hfp'] at hpre
            simp at hpre
          | some q0 =>
            rw [hfp'] at hpre hpost
            have hst0 : q0.status = st := by
              simpa using hpre
            have hst1 : (setProjectStatus t.projectId
                ProjectStatus.CANCELLED q0).status = st' := by
              simpa using hpost
            by_cases hq : q0.id = t.projectId
            · have hq0id : q0.id = pid := by
                have h2 := List.find?_some hfp'
                simpa using h2
              have hpid_eq : pid = t.projectId := hq0id ▸ hq
              have hpse : s.projStatus t.projectId = some st := by
                unfold Store.projStatus Store.findProject
                rw [← hpid_eq, hfp']
                simp [hst0]
              have hstprog : st = ProjectStatus.IN_PROGRESS := by
                rw [hpse] at hprog
                exact Option.some_injective _ hprog
              have hstc : st' = ProjectStatus.CANCELLED := by
                rw [← hst1]
                unfold setProjectStatus
                rw [if_pos hq]
              subst hstprog
              subst hstc
              exact Or.inr (Or.inr ⟨rfl, by simp⟩)
            · have hss : st' = st := by
                rw [← hst1, ← hst0]
                unfold setProjectStatus
                rw [if_neg hq]
              exact Or.inl hss.symm

/-- **C9 (amended)** — Along traces built from the lifecycle operations
— i.e. sequences in which `PUT /projects/:id` never writes the `status`
field and `POST /transactions/confirm-payment` is not used — every
project-status change of a single operation is one-directional: the
status stays, moves strictly forward on
`POSTED → IN_PROGRESS → COMPLETED → PAID`, or enters the terminal
`CANCELLED` from a non-`PAID` state.  (The unrestricted claim is false:
`cancelled_not_terminal` moves a `CANCELLED` project back to `POSTED`
through the status update; the confirm-payment upsert similarly re-opens
a settled transaction, letting release move a `CANCELLED` project to
`PAID`.) -/
theorem project_status_one_directional (s : Store)
    (h : ReachableVia Op.lifecycleOnly s) (op : Op) (hop : op.lifecycleOnly)
    (pid : Nat) (st st' : ProjectStatus)
    (hpre : s.projStatus pid = some st)
    (hpost : (op.apply s).projStatus pid = some st') :
    StepOk st st' := by
  obtain ⟨ops, hops, rfl⟩ := h
  obtain ⟨-, hE⟩ := invariants_runOps ops hops
  exact project_status_step _ op hop hE pid st st' hpre hpost

/-- Witness for C9 (amended): accepting freelancer A's bid in the
scenario state moves project 3 from `POSTED` to `IN_PROGRESS`, an
allowed forward move. -/
theorem project_status_one_directional_witness :
    StepOk .POSTED .IN_PROGRESS :=
  project_status_one_directional (runOps demoOps)
    ⟨demoOps, by
      intro op hop
      simp [demoOps] at hop
      rcases hop with rfl | rfl | rfl | rfl | rfl | rfl <;> trivial,
      rfl⟩
    (.acceptBid 0 4) trivial 3 .POSTED .IN_PROGRESS (by decide) (by decide)

end TranslateMarket
